import Mathlib

/-!
Verification of the market-metering core (drop analyzer and ATH store)
against its specification.

The development shallowly embeds the two core modules:

* src/dca_alerts/market/analyzer.py (class DropAnalyzer), and
* src/dca_alerts/persistence/ath_store.py (class ATHStore),

together with the data model of src/dca_alerts/models.py.

Modelling conventions:

* Python `decimal.Decimal` values are finite decimals; a value is modelled by
  the structure `Dec` (integer coefficient with the sign folded in, times a
  power of ten), mirroring `Decimal.as_tuple()`.  `NaN`, infinities and the
  negative zero are outside the model.  Arithmetic on decimals
  (`-`, `/`, `*`, `abs`, comparisons) is modelled exactly over `ℚ`: the
  Python operations are exact whenever the result fits in the default
  28-significant-digit context, which holds for every quantity the analyzer
  manipulates (prices with two fractional digits and moderate magnitude);
  for the one inexact case, the quotient `drop / increment` in
  `determine_drop_tier`, rounding the quotient to 28 significant digits can
  never change the subsequent integer truncation, because that quotient is
  a rational with denominator at most 10^6 and is therefore never within
  10^-7 of an integer without being one.
* `Decimal.quantize(Decimal("0.01"))` uses the context default rounding
  ROUND_HALF_EVEN; it is modelled by `quantize2` below.
* `int(... .quantize(Decimal("1"), rounding=ROUND_DOWN))` truncates toward
  zero; it is modelled by `roundDown`.
* File contents are modelled at the JSON-value level (`Json` below), with a
  distinguished `malformed` state for undecodable bytes; `json.dump`
  followed by `json.load` is the identity on JSON values.
* Raising an exception is modelled by explicit error results (`Option`,
  `Except`, `Py`), with the exception class recorded where it matters.
-/

namespace DcaAlerts

/-! ### Rounding primitives of the `decimal` module -/

/-- Round a rational to an integer half-to-even (banker's rounding), the
default rounding `ROUND_HALF_EVEN` of Python's `decimal` context. -/
def roundHalfEven (x : ℚ) : ℤ :=
  let f : ℤ := ⌊x⌋
  if x - f < 1/2 then f
  else if 1/2 < x - f then f + 1
  else if f % 2 = 0 then f else f + 1

/-- Value of `gap.quantize(Decimal("0.01"))`: round to two decimal places,
half-to-even. -/
def quantize2 (x : ℚ) : ℚ := (roundHalfEven (x * 100) : ℚ) / 100

/-- Truncation toward zero, the `ROUND_DOWN` mode of
`quantize(Decimal("1"), rounding=ROUND_DOWN)`. -/
def roundDown (x : ℚ) : ℤ := if 0 ≤ x then ⌊x⌋ else -⌊-x⌋

/-! ### Data model (src/dca_alerts/models.py) -/

/-- Enumeration `IndexSymbol` of models.py. -/
inductive IndexSymbol where
  | SP500
  | NASDAQ100
  | RUSSELL2000
  deriving DecidableEq

/-- Property `IndexSymbol.value`: the enum member value. -/
def IndexSymbol.value : IndexSymbol → List Char
  | .SP500 => "^GSPC".toList
  | .NASDAQ100 => "^NDX".toList
  | .RUSSELL2000 => "^RUT".toList

/-- Enumeration `Recommendation` of models.py. -/
inductive Recommendation where
  | BUY
  | HOLD
  deriving DecidableEq

/-- A finite value of Python's `decimal.Decimal`: the integer coefficient `m`
(with the sign folded in) times `10 ^ exp`, mirroring `Decimal.as_tuple()`. -/
structure Dec where
  m : ℤ
  exp : ℤ
  deriving DecidableEq

/-- Numeric value of a `Dec`; Python compares and computes with Decimals by
value. -/
def Dec.toRat (d : Dec) : ℚ :=
  if 0 ≤ d.exp then (d.m : ℚ) * (10 : ℚ) ^ d.exp.toNat
  else (d.m : ℚ) / (10 : ℚ) ^ (-d.exp).toNat

/-- A value of `datetime.date`: fields `year`, `month`, `day`. -/
structure PyDate where
  year : ℕ
  month : ℕ
  day : ℕ
  deriving DecidableEq

/-- A value of `datetime.datetime`: a date, a time, and an optional
UTC offset in minutes (`None` models a naive datetime).  Offsets with a
seconds component are outside the model. -/
structure PyDateTime where
  date : PyDate
  hour : ℕ
  minute : ℕ
  second : ℕ
  microsecond : ℕ
  tz : Option ℤ
  deriving DecidableEq

/-- Dataclass `ATHRecord` of models.py. -/
structure ATHRecord where
  symbol : IndexSymbol
  ath_value : Dec
  ath_date : PyDate
  updated_at : PyDateTime
  deriving DecidableEq

/-- Dataclass `IndexData` of models.py. -/
structure IndexData where
  symbol : IndexSymbol
  current_price : Dec
  fetched_at : PyDateTime
  market_date : PyDate
  deriving DecidableEq

/-- Dataclass `AnalysisResult` of models.py.  `gap_percent` is modelled by
its numeric value. -/
structure AnalysisResult where
  symbol : IndexSymbol
  current_price : Dec
  ath_value : Dec
  ath_date : PyDate
  gap_percent : ℚ
  drop_tier : ℤ
  recommendation : Recommendation
  is_new_ath : Bool
  deriving DecidableEq

/-! ### Drop analyzer (src/dca_alerts/market/analyzer.py) -/

/-- State of a constructed `DropAnalyzer`: `self._increment` (an integer
Decimal, kept as an integer). -/
structure DropAnalyzer where
  increment : ℤ
  deriving DecidableEq

/-- Constructor `DropAnalyzer.__init__`.  `none` models
`raise ValueError(...)` on the guard
`drop_increment <= 0 or drop_increment > 100`. -/
def DropAnalyzer.init (drop_increment : ℤ) : Option DropAnalyzer :=
  if drop_increment ≤ 0 ∨ 100 < drop_increment then none
  else some ⟨drop_increment⟩

/-- Method `DropAnalyzer.calculate_gap_percent` (the method does not use
`self`): `0` if `ath == 0`, else `(((current - ath) / ath) * 100)`
quantized to two decimal places. -/
def DropAnalyzer.calculate_gap_percent (current ath : ℚ) : ℚ :=
  if ath = 0 then 0
  else quantize2 ((current - ath) / ath * 100)

/-- Method `DropAnalyzer.determine_drop_tier`: `0` for a non-negative gap,
else the truncated quotient `int((abs(gap) / increment).quantize(1, ROUND_DOWN))`
times `int(increment)`. -/
def DropAnalyzer.determine_drop_tier (a : DropAnalyzer) (gap_percent : ℚ) : ℤ :=
  if 0 ≤ gap_percent then 0
  else roundDown (|gap_percent| / (a.increment : ℚ)) * a.increment

/-- Method `DropAnalyzer.analyze`.  `now` stands for the value of
`datetime.now(timezone.utc)` taken at the top of the method. -/
def DropAnalyzer.analyze (a : DropAnalyzer) (now : PyDateTime)
    (index_data : IndexData) (ath_record : Option ATHRecord) :
    AnalysisResult × Option ATHRecord :=
  let current := index_data.current_price
  match ath_record with
  | none =>
    (⟨index_data.symbol, current, current, index_data.market_date,
        0, 0, .HOLD, true⟩,
      some ⟨index_data.symbol, current, index_data.market_date, now⟩)
  | some r =>
    if r.ath_value.toRat < current.toRat then
      (⟨index_data.symbol, current, current, index_data.market_date,
          0, 0, .HOLD, true⟩,
        some ⟨index_data.symbol, current, index_data.market_date, now⟩)
    else
      let gap_percent := DropAnalyzer.calculate_gap_percent current.toRat r.ath_value.toRat
      let drop_tier := a.determine_drop_tier gap_percent
      let recommendation := if 0 < drop_tier then Recommendation.BUY else Recommendation.HOLD
      (⟨index_data.symbol, current, r.ath_value, r.ath_date,
          gap_percent, drop_tier, recommendation, false⟩,
        none)

/-! ### Digit strings

Infrastructure for the textual serialization used by the ATH store:
`str()` on integers, `%0Nd` zero-padded fields, and the numeric parts of
the `Decimal` numeric-string grammar. -/

/-- Character of a decimal digit. -/
def digitChar : ℕ → Char
  | 0 => '0' | 1 => '1' | 2 => '2' | 3 => '3' | 4 => '4'
  | 5 => '5' | 6 => '6' | 7 => '7' | 8 => '8' | _ => '9'

/-- Numeric value of a digit character (0 for non-digit characters). -/
def digitVal (c : Char) : ℕ :=
  if c = '1' then 1 else if c = '2' then 2 else if c = '3' then 3
  else if c = '4' then 4 else if c = '5' then 5 else if c = '6' then 6
  else if c = '7' then 7 else if c = '8' then 8 else if c = '9' then 9
  else 0

/-- Folding step of `int()` over a digit string. -/
def digitStep (acc : ℕ) (c : Char) : ℕ := acc * 10 + digitVal c

/-- Value of a digit string, as computed by `int()` (leading zeros allowed). -/
def natFromChars (cs : List Char) : ℕ := cs.foldl digitStep 0

/-- Decimal digit characters of `n` (most significant first), empty for 0.
The fuel argument bounds the recursion; any `fuel ≥ n` yields the digits
of `n`. -/
def natDigitsAux : ℕ → ℕ → List Char
  | 0, _ => []
  | fuel + 1, n =>
    if n = 0 then [] else natDigitsAux fuel (n / 10) ++ [digitChar (n % 10)]

/-- Decimal digit characters of `n`, most significant first, `"0"` for 0:
the digit string of `str()` on a natural number and of `Decimal._int`. -/
def natChars (n : ℕ) : List Char := if n = 0 then ['0'] else natDigitsAux n n

/-- The `w` low decimal digits of `n`, zero-padded to width `w`, most
significant first: the output of a `%0wd` format when `n < 10 ^ w`. -/
def padChars : ℕ → ℕ → List Char
  | 0, _ => []
  | w + 1, n => digitChar (n / 10 ^ w % 10) :: padChars w n

/-- Fixed-width digit-field parser: consume exactly `w` digit characters,
folding up their value onto `acc`; fail on a non-digit or on exhaustion. -/
def parseFixedAux : ℕ → ℕ → List Char → Option (ℕ × List Char)
  | 0, acc, cs => some (acc, cs)
  | _ + 1, _, [] => none
  | w + 1, acc, c :: cs =>
    if c.isDigit then parseFixedAux w (acc * 10 + digitVal c) cs else none

/-- Longest run of digit characters at the head of the input, with the
rest: the splitting performed by the numeric-string regex. -/
def takeDigits : List Char → List Char × List Char
  | [] => ([], [])
  | c :: cs =>
    if c.isDigit then
      let p := takeDigits cs
      (c :: p.1, p.2)
    else ([], c :: cs)

/-- Optional leading sign of a numeric string; `true` means negative. -/
def parseSign : List Char → Bool × List Char
  | [] => (false, [])
  | c :: cs =>
    if c = '-' then (true, cs)
    else if c = '+' then (false, cs)
    else (false, c :: cs)

lemma digitVal_digitChar {d : ℕ} (h : d < 10) : digitVal (digitChar d) = d := by
  interval_cases d <;> decide

lemma isDigit_digitChar {d : ℕ} (h : d < 10) : (digitChar d).isDigit = true := by
  interval_cases d <;> decide

lemma ne_of_isDigit {c c' : Char} (h : c.isDigit = true) (h' : c'.isDigit = false) :
    c ≠ c' := by
  intro he
  rw [he, h'] at h
  exact Bool.false_ne_true h

lemma parseSign_no_sign (c : Char) (cs : List Char) (h : c.isDigit = true) :
    parseSign (c :: cs) = (false, c :: cs) := by
  have h1 : c ≠ '-' := ne_of_isDigit h (by decide)
  have h2 : c ≠ '+' := ne_of_isDigit h (by decide)
  simp [parseSign, h1, h2]

lemma natFromChars_append_singleton (cs : List Char) (c : Char) :
    natFromChars (cs ++ [c]) = digitStep (natFromChars cs) c := by
  simp [natFromChars, List.foldl_append]

lemma natFromChars_natDigitsAux : ∀ fuel n, n ≤ fuel →
    natFromChars (natDigitsAux fuel n) = n := by
  intro fuel
  induction fuel with
  | zero =>
    intro n h
    interval_cases n
    rfl
  | succ f ih =>
    intro n h
    by_cases h0 : n = 0
    · subst h0; rfl
    · have hd : n / 10 ≤ f := by omega
      simp only [natDigitsAux, if_neg h0]
      rw [natFromChars_append_singleton, ih _ hd]
      unfold digitStep
      rw [digitVal_digitChar (Nat.mod_lt n (by norm_num))]
      omega

lemma natFromChars_natChars (n : ℕ) : natFromChars (natChars n) = n := by
  by_cases h0 : n = 0
  · subst h0; rfl
  · simp only [natChars, if_neg h0]
    exact natFromChars_natDigitsAux n n le_rfl

lemma isDigit_of_mem_natDigitsAux : ∀ fuel n c, c ∈ natDigitsAux fuel n →
    c.isDigit = true := by
  intro fuel
  induction fuel with
  | zero => intro n c hc; simp [natDigitsAux] at hc
  | succ f ih =>
    intro n c hc
    by_cases h0 : n = 0
    · subst h0; simp [natDigitsAux] at hc
    · simp only [natDigitsAux, if_neg h0, List.mem_append, List.mem_singleton] at hc
      rcases hc with hc | hc
      · exact ih _ _ hc
      · subst hc; exact isDigit_digitChar (Nat.mod_lt n (by norm_num))

lemma isDigit_of_mem_natChars (n : ℕ) (c : Char) (hc : c ∈ natChars n) :
    c.isDigit = true := by
  by_cases h0 : n = 0
  · subst h0; simp [natChars] at hc; subst hc; decide
  · simp only [natChars, if_neg h0] at hc
    exact isDigit_of_mem_natDigitsAux n n c hc

lemma natChars_ne_nil (n : ℕ) : natChars n ≠ [] := by
  by_cases h0 : n = 0
  · subst h0; simp [natChars]
  · simp only [natChars, if_neg h0]
    rcases Nat.exists_eq_add_of_lt (Nat.pos_of_ne_zero h0) with ⟨f, hf⟩
    have : n = f + 1 := by omega
    subst this
    simp [natDigitsAux, h0]

lemma natFromChars_cons_zero (cs : List Char) :
    natFromChars ('0' :: cs) = natFromChars cs := by
  simp [natFromChars, List.foldl_cons, digitStep, digitVal]

lemma natFromChars_replicate_zero (k : ℕ) (cs : List Char) :
    natFromChars (List.replicate k '0' ++ cs) = natFromChars cs := by
  induction k with
  | zero => rfl
  | succ k ih =>
    rw [List.replicate_succ, List.cons_append, natFromChars_cons_zero, ih]

lemma takeDigits_all (cs : List Char) (h : ∀ c ∈ cs, c.isDigit = true) :
    takeDigits cs = (cs, []) := by
  induction cs with
  | nil => rfl
  | cons c cs ih =>
    have hc : c.isDigit = true := h c (List.mem_cons_self c cs)
    have := ih (fun x hx => h x (List.mem_cons_of_mem c hx))
    simp [takeDigits, hc, this]

lemma takeDigits_append (ds : List Char) (c : Char) (rest : List Char)
    (h : ∀ x ∈ ds, x.isDigit = true) (hc : c.isDigit = false) :
    takeDigits (ds ++ c :: rest) = (ds, c :: rest) := by
  induction ds with
  | nil => simp [takeDigits, hc]
  | cons d ds ih =>
    have hd : d.isDigit = true := h d (List.mem_cons_self d ds)
    have := ih (fun x hx => h x (List.mem_cons_of_mem d hx))
    simp [takeDigits, hd, this]

lemma parseFixedAux_padChars : ∀ w a n rest,
    parseFixedAux w a (padChars w n ++ rest) =
      some (a * 10 ^ w + n % 10 ^ w, rest) := by
  intro w
  induction w with
  | zero => intro a n rest; simp [padChars, parseFixedAux, Nat.mod_one]
  | succ w ih =>
    intro a n rest
    have hlt : n / 10 ^ w % 10 < 10 := Nat.mod_lt _ (by norm_num)
    simp only [padChars, List.cons_append, parseFixedAux,
      isDigit_digitChar hlt, if_true, List.append_eq]
    rw [ih, digitVal_digitChar hlt]
    congr 1
    congr 1
    have hmm : n % (10 ^ w * 10) = n % 10 ^ w + 10 ^ w * (n / 10 ^ w % 10) :=
      Nat.mod_mul
    rw [pow_succ, hmm]
    ring

lemma isDigit_of_mem_padChars : ∀ w n c, c ∈ padChars w n → c.isDigit = true := by
  intro w
  induction w with
  | zero => intro n c hc; simp [padChars] at hc
  | succ w ih =>
    intro n c hc
    simp only [padChars, List.mem_cons] at hc
    rcases hc with hc | hc
    · subst hc; exact isDigit_digitChar (Nat.mod_lt _ (by norm_num))
    · exact ih _ _ hc

/-! ### `str()` on a finite `Decimal`, and the `Decimal` constructor's parse

The printer follows `_pydecimal.Decimal.__str__`: with `ds` the coefficient
digit string and `leftdigits = exp + len(ds)`, the number is printed in
plain form with the point placed at `dotplace = leftdigits` when
`exp ≤ 0 and leftdigits > -6`, and otherwise in scientific form with
`dotplace = 1` and the exponent `leftdigits - dotplace` rendered by a
`%+d` format.  The parser follows the numeric-string grammar accepted by
the `Decimal` constructor: optional sign, digits with an optional point,
and an optional exponent part; the coefficient is the digit string with
the point removed (leading zeros collapse, as in `int()`), the exponent is
the written exponent minus the number of fractional digits. -/

/-- Exponent field of `str(Decimal)`: a `%+d` format of `x`. -/
def decExpChars (x : ℤ) : List Char :=
  (if x < 0 then ['-'] else ['+']) ++ natChars x.natAbs

/-- Position of the decimal point in `str(Decimal)` (`dotplace` in
`_pydecimal.__str__`), for coefficient `n` and exponent `e`. -/
def decDotplace (n : ℕ) (e : ℤ) : ℤ :=
  if e ≤ 0 ∧ -6 < e + ((natChars n).length : ℤ) then e + ((natChars n).length : ℤ)
  else 1

/-- Digits-and-point part of `str(Decimal)` (the `intpart`/`fracpart`
concatenation of `_pydecimal.__str__`). -/
def decBody (n : ℕ) (e : ℤ) : List Char :=
  if decDotplace n e < 1 then
    '0' :: '.' :: (List.replicate (-decDotplace n e).toNat '0' ++ natChars n)
  else if ((natChars n).length : ℤ) ≤ decDotplace n e then
    natChars n ++ List.replicate (decDotplace n e - (natChars n).length).toNat '0'
  else
    (natChars n).take (decDotplace n e).toNat ++
      '.' :: (natChars n).drop (decDotplace n e).toNat

/-- Exponent part of `str(Decimal)`: empty when the point sits at
`leftdigits`, else `E` followed by the signed exponent. -/
def decExpPart (n : ℕ) (e : ℤ) : List Char :=
  if e + ((natChars n).length : ℤ) = decDotplace n e then []
  else 'E' :: decExpChars (e + ((natChars n).length : ℤ) - decDotplace n e)

/-- Output of `str()` on a finite unsigned `Decimal` with coefficient `n`
and exponent `e`. -/
def decUnsignedChars (n : ℕ) (e : ℤ) : List Char := decBody n e ++ decExpPart n e

/-- Output of `str()` on a finite `Decimal`. -/
def decChars (d : Dec) : List Char :=
  (if d.m < 0 then ['-'] else []) ++ decUnsignedChars d.m.natAbs d.exp

/-- Exponent part of the `Decimal` constructor's parse: the input after the
coefficient must be empty or an `E`/`e` exponent group ending the string. -/
def parseDecExp (neg : Bool) (coeff : List Char) (fracLen : ℕ) :
    List Char → Option Dec
  | [] => some ⟨(if neg then -1 else 1) * (natFromChars coeff : ℤ), -(fracLen : ℤ)⟩
  | c :: cs =>
    if c = 'E' ∨ c = 'e' then
      let s := parseSign cs
      let p := takeDigits s.2
      if p.1 = [] ∨ p.2 ≠ [] then none
      else
        some ⟨(if neg then -1 else 1) * (natFromChars coeff : ℤ),
          (if s.1 then -1 else 1) * (natFromChars p.1 : ℤ) - (fracLen : ℤ)⟩
    else none

/-- Continuation of the `Decimal` constructor's parse after the integer-part
digits `ip`: an optional fraction, then the exponent part.  At least one
digit must be present in `ip` or the fraction. -/
def parseDecFrac (neg : Bool) (ip : List Char) : List Char → Option Dec
  | [] => if ip = [] then none else parseDecExp neg ip 0 []
  | c :: cs =>
    if c = '.' then
      let fp := takeDigits cs
      if ip = [] ∧ fp.1 = [] then none
      else parseDecExp neg (ip ++ fp.1) fp.1.length fp.2
    else if ip = [] then none
    else parseDecExp neg ip 0 (c :: cs)

/-- Parse of a sign-stripped numeric string by the `Decimal` constructor. -/
def parseDecCore (neg : Bool) (cs : List Char) : Option Dec :=
  parseDecFrac neg (takeDigits cs).1 (takeDigits cs).2

/-- Parse of a numeric string by the `Decimal` constructor.  `none` models
`decimal.InvalidOperation` (`NaN`/`Infinity` forms, underscores and
surrounding whitespace are outside the model). -/
def parseDec (cs : List Char) : Option Dec :=
  parseDecCore (parseSign cs).1 (parseSign cs).2

lemma parseSign_neg (cs : List Char) : parseSign ('-' :: cs) = (true, cs) := rfl

lemma parseSign_pos (cs : List Char) : parseSign ('+' :: cs) = (false, cs) := rfl

lemma parseDecExp_nil (neg : Bool) (coeff : List Char) (fracLen : ℕ) :
    parseDecExp neg coeff fracLen [] =
      some ⟨(if neg then -1 else 1) * (natFromChars coeff : ℤ), -(fracLen : ℤ)⟩ := rfl

lemma parseDecFrac_nil (neg : Bool) (ip : List Char) :
    parseDecFrac neg ip [] = if ip = [] then none else parseDecExp neg ip 0 [] := rfl

lemma parseDecFrac_dot (neg : Bool) (ip cs : List Char) :
    parseDecFrac neg ip ('.' :: cs) =
      (if ip = [] ∧ (takeDigits cs).1 = [] then none
       else parseDecExp neg (ip ++ (takeDigits cs).1) (takeDigits cs).1.length
         (takeDigits cs).2) := rfl

lemma parseDecFrac_no_dot (neg : Bool) (ip : List Char) (c : Char) (cs : List Char)
    (hc : c ≠ '.') :
    parseDecFrac neg ip (c :: cs) =
      if ip = [] then none else parseDecExp neg ip 0 (c :: cs) := by
  simp [parseDecFrac, hc]

lemma parseDecExp_consE (neg : Bool) (coeff : List Char) (fracLen : ℕ)
    (rest : List Char) :
    parseDecExp neg coeff fracLen ('E' :: rest) =
      (if (takeDigits (parseSign rest).2).1 = [] ∨ (takeDigits (parseSign rest).2).2 ≠ []
       then none
       else
         some ⟨(if neg then -1 else 1) * (natFromChars coeff : ℤ),
           (if (parseSign rest).1 then -1 else 1) *
             (natFromChars (takeDigits (parseSign rest).2).1 : ℤ) - (fracLen : ℤ)⟩) := rfl

lemma parseDecExp_E (neg : Bool) (coeff : List Char) (fracLen : ℕ) (x : ℤ) :
    parseDecExp neg coeff fracLen ('E' :: decExpChars x) =
      some ⟨(if neg then -1 else 1) * (natFromChars coeff : ℤ),
        x - (fracLen : ℤ)⟩ := by
  have hdig : ∀ c ∈ natChars x.natAbs, c.isDigit = true :=
    isDigit_of_mem_natChars x.natAbs
  have hne : natChars x.natAbs ≠ [] := natChars_ne_nil x.natAbs
  rw [parseDecExp_consE]
  by_cases hx : x < 0
  · rw [show decExpChars x = '-' :: natChars x.natAbs from by
      rw [decExpChars, if_pos hx, List.singleton_append]]
    rw [parseSign_neg]
    simp only [takeDigits_all _ hdig]
    rw [if_neg (show ¬(natChars x.natAbs = [] ∨ ([] : List Char) ≠ []) from by
      simp [hne])]
    rw [natFromChars_natChars]
    simp only [if_true, Option.some.injEq, Dec.mk.injEq, true_and]
    omega
  · rw [show decExpChars x = '+' :: natChars x.natAbs from by
      rw [decExpChars, if_neg hx, List.singleton_append]]
    rw [parseSign_pos]
    simp only [takeDigits_all _ hdig]
    rw [if_neg (show ¬(natChars x.natAbs = [] ∨ ([] : List Char) ≠ []) from by
      simp [hne])]
    rw [natFromChars_natChars]
    simp only [Bool.false_eq_true, if_false, Option.some.injEq, Dec.mk.injEq, true_and]
    omega

lemma parseDecCore_decUnsignedChars (neg : Bool) (n : ℕ) (e : ℤ) :
    parseDecCore neg (decUnsignedChars n e) =
      some ⟨(if neg then -1 else 1) * (n : ℤ), e⟩ := by
  have hdig : ∀ c ∈ natChars n, c.isDigit = true := isDigit_of_mem_natChars n
  have hL : 1 ≤ (natChars n).length := List.length_pos.mpr (natChars_ne_nil n)
  have hDotd : ('.' : Char).isDigit = false := by decide
  have hEd : ('E' : Char).isDigit = false := by decide
  have hEdot : ('E' : Char) ≠ '.' := by decide
  by_cases hA : e ≤ 0 ∧ -6 < e + ((natChars n).length : ℤ)
  · have hdp : decDotplace n e = e + ((natChars n).length : ℤ) := by
      rw [decDotplace, if_pos hA]
    have hexp : decExpPart n e = [] := by
      rw [decExpPart, hdp, if_pos rfl]
    by_cases h1 : e + ((natChars n).length : ℤ) < 1
    · have hbody : decBody n e =
          '0' :: '.' :: (List.replicate (-(e + ((natChars n).length : ℤ))).toNat '0'
            ++ natChars n) := by
        rw [decBody, hdp, if_pos h1]
      have hzd : ∀ c ∈ List.replicate
          (-(e + ((natChars n).length : ℤ))).toNat '0' ++ natChars n,
          c.isDigit = true := by
        intro c hc
        rcases List.mem_append.mp hc with h | h
        · rw [List.eq_of_mem_replicate h]; decide
        · exact hdig c h
      rw [decUnsignedChars, hbody, hexp, List.append_nil, parseDecCore]
      have ht : takeDigits ('0' :: '.' ::
          (List.replicate (-(e + ((natChars n).length : ℤ))).toNat '0' ++ natChars n)) =
          (['0'], '.' :: (List.replicate (-(e + ((natChars n).length : ℤ))).toNat '0'
            ++ natChars n)) := rfl
      rw [ht]
      rw [parseDecFrac_dot]
      simp only [takeDigits_all _ hzd]
      rw [if_neg (show ¬((['0'] : List Char) = [] ∧
        List.replicate (-(e + ((natChars n).length : ℤ))).toNat '0' ++ natChars n = [])
        from by simp)]
      rw [parseDecExp_nil]
      simp only [List.singleton_append, Option.some.injEq, Dec.mk.injEq]
      refine ⟨?_, ?_⟩
      · rw [natFromChars_cons_zero, natFromChars_replicate_zero, natFromChars_natChars]
      · rw [List.length_append, List.length_replicate]
        omega
    · by_cases h2 : ((natChars n).length : ℤ) ≤ e + ((natChars n).length : ℤ)
      · have he : e = 0 := by omega
        have hbody : decBody n e = natChars n := by
          rw [decBody, hdp, if_neg h1, if_pos h2]
          have h0 : (e + ((natChars n).length : ℤ) -
              ((natChars n).length : ℤ)).toNat = 0 := by omega
          rw [h0, List.replicate_zero, List.append_nil]
        rw [decUnsignedChars, hbody, hexp, List.append_nil, parseDecCore,
          takeDigits_all _ hdig]
        rw [parseDecFrac_nil, if_neg (natChars_ne_nil n), parseDecExp_nil,
          natFromChars_natChars]
        simp only [Option.some.injEq, Dec.mk.injEq, true_and, Nat.cast_zero, neg_zero]
        omega
      · have hdpN1 : 1 ≤ (e + ((natChars n).length : ℤ)).toNat := by omega
        have htake : ∀ c ∈ (natChars n).take (e + ((natChars n).length : ℤ)).toNat,
            c.isDigit = true := fun c hc => hdig c (List.take_subset _ _ hc)
        have hdrop : ∀ c ∈ (natChars n).drop (e + ((natChars n).length : ℤ)).toNat,
            c.isDigit = true := fun c hc => hdig c (List.drop_subset _ _ hc)
        have hbody : decBody n e =
            (natChars n).take (e + ((natChars n).length : ℤ)).toNat ++
              '.' :: (natChars n).drop (e + ((natChars n).length : ℤ)).toNat := by
          rw [decBody, hdp, if_neg h1, if_neg h2]
        have htne : (natChars n).take (e + ((natChars n).length : ℤ)).toNat ≠ [] := by
          intro hnil
          have := congrArg List.length hnil
          rw [List.length_take] at this
          simp only [List.length_nil] at this
          omega
        rw [decUnsignedChars, hbody, hexp, List.append_nil, parseDecCore,
          takeDigits_append _ _ _ htake hDotd, parseDecFrac_dot]
        simp only [takeDigits_all _ hdrop]
        rw [if_neg (show ¬((natChars n).take (e + ((natChars n).length : ℤ)).toNat = [] ∧
          (natChars n).drop (e + ((natChars n).length : ℤ)).toNat = []) from
          fun h => htne h.1)]
        rw [List.take_append_drop, parseDecExp_nil, natFromChars_natChars]
        simp only [Option.some.injEq, Dec.mk.injEq, true_and, List.length_drop]
        omega
  · have hdp : decDotplace n e = 1 := by rw [decDotplace, if_neg hA]
    have hne1 : e + ((natChars n).length : ℤ) ≠ 1 := by
      rcases not_and_or.mp hA with h | h
      · omega
      · omega
    have hexp : decExpPart n e =
        'E' :: decExpChars (e + ((natChars n).length : ℤ) - 1) := by
      rw [decExpPart, hdp, if_neg hne1]
    by_cases hB1 : ((natChars n).length : ℤ) ≤ 1
    · have hL1 : ((natChars n).length : ℤ) = 1 := by omega
      have h11 : ¬((1 : ℤ) < 1) := by norm_num
      have hbody : decBody n e = natChars n := by
        rw [decBody, hdp, if_neg h11, if_pos hB1, hL1,
          show ((1 : ℤ) - 1).toNat = 0 from rfl, List.replicate_zero, List.append_nil]
      rw [decUnsignedChars, hbody, hexp, parseDecCore,
        takeDigits_append _ _ _ hdig hEd,
        parseDecFrac_no_dot _ _ _ _ hEdot, if_neg (natChars_ne_nil n),
        parseDecExp_E, natFromChars_natChars]
      simp only [Option.some.injEq, Dec.mk.injEq, true_and, Nat.cast_zero]
      omega
    · have htake : ∀ c ∈ (natChars n).take 1, c.isDigit = true :=
        fun c hc => hdig c (List.take_subset _ _ hc)
      have hdrop : ∀ c ∈ (natChars n).drop 1, c.isDigit = true :=
        fun c hc => hdig c (List.drop_subset _ _ hc)
      have htne : (natChars n).take 1 ≠ [] := by
        intro hnil
        have := congrArg List.length hnil
        rw [List.length_take] at this
        simp only [List.length_nil] at this
        omega
      have h11 : ¬((1 : ℤ) < 1) := by norm_num
      have hbody : decBody n e =
          (natChars n).take 1 ++ '.' :: (natChars n).drop 1 := by
        rw [decBody, hdp, if_neg h11, if_neg hB1, show ((1 : ℤ)).toNat = 1 from rfl]
      rw [decUnsignedChars, hbody, hexp, List.append_assoc, List.cons_append,
        parseDecCore, takeDigits_append _ _ _ htake hDotd, parseDecFrac_dot]
      simp only [takeDigits_append ((natChars n).drop 1) 'E'
        (decExpChars (e + ((natChars n).length : ℤ) - 1)) hdrop hEd]
      rw [if_neg (show ¬((natChars n).take 1 = [] ∧ (natChars n).drop 1 = []) from
        fun h => htne h.1)]
      rw [List.take_append_drop, parseDecExp_E, natFromChars_natChars]
      simp only [Option.some.injEq, Dec.mk.injEq, true_and, List.length_drop]
      omega

lemma decBody_head_digit (n : ℕ) (e : ℤ) :
    ∃ c cs, decBody n e = c :: cs ∧ c.isDigit = true := by
  obtain ⟨c, cs', hcs⟩ := List.exists_cons_of_ne_nil (natChars_ne_nil n)
  have hc : c.isDigit = true := by
    apply isDigit_of_mem_natChars n
    rw [hcs]
    exact List.mem_cons_self c cs'
  rw [decBody]
  by_cases h1 : decDotplace n e < 1
  · exact ⟨'0', _, by rw [if_pos h1], by decide⟩
  · by_cases h2 : ((natChars n).length : ℤ) ≤ decDotplace n e
    · refine ⟨c, cs' ++ List.replicate (decDotplace n e - (natChars n).length).toNat '0',
        ?_, hc⟩
      rw [if_neg h1, if_pos h2, hcs, List.cons_append]
    · have hdp1 : 1 ≤ (decDotplace n e).toNat := by omega
      obtain ⟨k, hk⟩ := Nat.exists_eq_add_of_le hdp1
      refine ⟨c, (cs'.take k) ++ '.' :: (natChars n).drop (decDotplace n e).toNat,
        ?_, hc⟩
      rw [if_neg h1, if_neg h2, hcs, hk]
      rw [show 1 + k = k + 1 by omega, List.take_succ_cons, List.cons_append]

/-- Round trip of the ATH store's decimal serialization: parsing the
`str()` form of a finite `Decimal` recovers it exactly. -/
theorem parseDec_decChars (d : Dec) : parseDec (decChars d) = some d := by
  obtain ⟨dm, de⟩ := d
  obtain ⟨c, cs, hbody, hcdig⟩ := decBody_head_digit dm.natAbs de
  have hun : decUnsignedChars dm.natAbs de = c :: (cs ++ decExpPart dm.natAbs de) := by
    rw [decUnsignedChars, hbody, List.cons_append]
  have h1 : decChars ⟨dm, de⟩ =
      (if dm < 0 then ['-'] else []) ++ decUnsignedChars dm.natAbs de := rfl
  by_cases hm : dm < 0
  · rw [h1, if_pos hm, List.singleton_append]
    show parseDecCore true (decUnsignedChars dm.natAbs de) = some ⟨dm, de⟩
    rw [parseDecCore_decUnsignedChars,
      show (if (true : Bool) = true then (-1 : ℤ) else 1) = (-1 : ℤ) from rfl]
    simp only [Option.some.injEq, Dec.mk.injEq]
    exact ⟨by omega, trivial⟩
  · rw [h1, if_neg hm, List.nil_append, parseDec, hun,
      parseSign_no_sign _ _ hcdig, ← hun]
    show parseDecCore false (decUnsignedChars dm.natAbs de) = some ⟨dm, de⟩
    rw [parseDecCore_decUnsignedChars,
      show (if (false : Bool) = true then (-1 : ℤ) else 1) = (1 : ℤ) from rfl]
    simp only [Option.some.injEq, Dec.mk.injEq]
    exact ⟨by omega, trivial⟩

/-! ### Dates and datetimes: `isoformat()` and `fromisoformat()` -/

/-- Gregorian leap year, as computed by the `datetime` module. -/
def isLeap (y : ℕ) : Bool := y % 4 == 0 && (y % 100 != 0 || y % 400 == 0)

/-- Days in a month (`datetime._days_in_month`). -/
def daysInMonth (y m : ℕ) : ℕ :=
  if m = 2 then (if isLeap y then 29 else 28)
  else if m = 4 ∨ m = 6 ∨ m = 9 ∨ m = 11 then 30
  else 31

/-- Validity invariant of a `datetime.date` value: year in
`MINYEAR..MAXYEAR`, month in `1..12`, day within the month. -/
def PyDate.valid (d : PyDate) : Bool :=
  decide (1 ≤ d.year) && decide (d.year ≤ 9999) && decide (1 ≤ d.month) &&
  decide (d.month ≤ 12) && decide (1 ≤ d.day) &&
  decide (d.day ≤ daysInMonth d.year d.month)

/-- Validity invariant of a `datetime.datetime` value; an aware value's
UTC offset is strictly less than one day in magnitude. -/
def PyDateTime.valid (t : PyDateTime) : Bool :=
  t.date.valid && decide (t.hour ≤ 23) && decide (t.minute ≤ 59) &&
  decide (t.second ≤ 59) && decide (t.microsecond ≤ 999999) &&
  (match t.tz with
   | none => true
   | some off => decide (off.natAbs ≤ 1439))

/-- `date.isoformat()`: `YYYY-MM-DD`, zero-padded. -/
def dateChars (d : PyDate) : List Char :=
  padChars 4 d.year ++ '-' :: (padChars 2 d.month ++ '-' :: padChars 2 d.day)

/-- `HH:MM:SS` part of `datetime.isoformat()`. -/
def timeChars (t : PyDateTime) : List Char :=
  padChars 2 t.hour ++ ':' :: (padChars 2 t.minute ++ ':' :: padChars 2 t.second)

/-- Microsecond part of `datetime.isoformat()`: `.ffffff`, omitted when
zero. -/
def microChars (t : PyDateTime) : List Char :=
  if t.microsecond = 0 then [] else '.' :: padChars 6 t.microsecond

/-- UTC-offset part of `datetime.isoformat()`: empty for a naive value,
else `±HH:MM`. -/
def offsetChars : Option ℤ → List Char
  | none => []
  | some off =>
    (if off < 0 then '-' else '+') ::
      (padChars 2 (off.natAbs / 60) ++ ':' :: padChars 2 (off.natAbs % 60))

/-- `datetime.isoformat()` (with the default `T` separator). -/
def dateTimeChars (t : PyDateTime) : List Char :=
  dateChars t.date ++ 'T' :: (timeChars t ++ microChars t ++ offsetChars t.tz)

/-- `date.fromisoformat` on the canonical `YYYY-MM-DD` form (the inverse of
`date.isoformat`; further ISO 8601 formats accepted since Python 3.11 are
outside the model).  `none` models `ValueError`. -/
def parseDate (cs : List Char) : Option PyDate :=
  match parseFixedAux 4 0 cs with
  | some (y, '-' :: r1) =>
    match parseFixedAux 2 0 r1 with
    | some (mo, '-' :: r2) =>
      match parseFixedAux 2 0 r2 with
      | some (dy, []) =>
        if PyDate.valid ⟨y, mo, dy⟩ then some ⟨y, mo, dy⟩ else none
      | _ => none
    | _ => none
  | _ => none

/-- Fractional-second field of `datetime.fromisoformat` (six digits, as
produced by `isoformat`), defaulting to zero microseconds. -/
def parseMicro : List Char → Option (ℕ × List Char)
  | [] => some (0, [])
  | c :: cs =>
    if c = '.' then
      match parseFixedAux 6 0 cs with
      | some (us, r) => some (us, r)
      | none => none
    else some (0, c :: cs)

/-- UTC-offset field of `datetime.fromisoformat`: empty input means naive;
else `±HH:MM` ending the string, with the offset below one day. -/
def parseOffset : List Char → Option (Option ℤ)
  | [] => some none
  | c :: cs =>
    if c = '+' ∨ c = '-' then
      match parseFixedAux 2 0 cs with
      | some (oh, ':' :: r1) =>
        match parseFixedAux 2 0 r1 with
        | some (om, []) =>
          if om ≤ 59 ∧ oh * 60 + om ≤ 1439 then
            some (some ((if c = '-' then -1 else 1) * ((oh * 60 + om : ℕ) : ℤ)))
          else none
        | _ => none
      | _ => none
    else none

/-- `datetime.fromisoformat` on the canonical forms produced by
`datetime.isoformat` (the inverse operation; further accepted formats are
outside the model).  `none` models `ValueError`. -/
def parseDateTime (cs : List Char) : Option PyDateTime :=
  match parseFixedAux 4 0 cs with
  | some (y, '-' :: r1) =>
    match parseFixedAux 2 0 r1 with
    | some (mo, '-' :: r2) =>
      match parseFixedAux 2 0 r2 with
      | some (dy, 'T' :: r3) =>
        match parseFixedAux 2 0 r3 with
        | some (hh, ':' :: r4) =>
          match parseFixedAux 2 0 r4 with
          | some (mi, ':' :: r5) =>
            match parseFixedAux 2 0 r5 with
            | some (ss, r6) =>
              match parseMicro r6 with
              | some (us, r7) =>
                match parseOffset r7 with
                | some tz =>
                  if PyDateTime.valid ⟨⟨y, mo, dy⟩, hh, mi, ss, us, tz⟩ then
                    some ⟨⟨y, mo, dy⟩, hh, mi, ss, us, tz⟩
                  else none
                | none => none
              | none => none
            | none => none
          | _ => none
        | _ => none
      | _ => none
    | _ => none
  | _ => none

lemma parseFixedAux_padChars_nil (w a n : ℕ) :
    parseFixedAux w a (padChars w n) = some (a * 10 ^ w + n % 10 ^ w, []) := by
  rw [← List.append_nil (padChars w n), parseFixedAux_padChars]

lemma daysInMonth_le (y m : ℕ) : daysInMonth y m ≤ 31 := by
  rw [daysInMonth]
  split
  · split <;> norm_num
  · split <;> norm_num

/-- Round trip of the ATH store's date serialization. -/
theorem parseDate_dateChars (d : PyDate) (h : d.valid = true) :
    parseDate (dateChars d) = some d := by
  obtain ⟨y, mo, dy⟩ := d
  have hb : (1 ≤ y ∧ y ≤ 9999 ∧ 1 ≤ mo ∧ mo ≤ 12 ∧ 1 ≤ dy) ∧
      dy ≤ daysInMonth y mo := by
    simpa [PyDate.valid, Bool.and_eq_true, decide_eq_true_eq, and_assoc] using h
  have hdy31 : dy ≤ 31 := le_trans hb.2 (daysInMonth_le y mo)
  have hy : y % 10000 = y := by omega
  have hmo : mo % 100 = mo := by omega
  have hdy : dy % 100 = dy := by omega
  simp [parseDate, dateChars, parseFixedAux_padChars, parseFixedAux_padChars_nil,
    hy, hmo, hdy, h]

lemma parseOffset_sign (c : Char) (oh om : ℕ) (hc : c = '+' ∨ c = '-')
    (hoh : oh ≤ 23) (hom : om ≤ 59) :
    parseOffset (c :: (padChars 2 oh ++ ':' :: padChars 2 om)) =
      some (some ((if c = '-' then -1 else 1) * ((oh * 60 + om : ℕ) : ℤ))) := by
  have h1 : oh % 100 = oh := by omega
  have h2 : om % 100 = om := by omega
  have h3 : om ≤ 59 ∧ oh * 60 + om ≤ 1439 := by omega
  simp only [parseOffset]
  rw [if_pos hc]
  simp [parseFixedAux_padChars, parseFixedAux_padChars_nil, h1, h2, h3]

/-- Round trip of the UTC-offset field of the timestamp serialization. -/
lemma parseOffset_offsetChars (tz : Option ℤ)
    (h : ∀ off, tz = some off → off.natAbs ≤ 1439) :
    parseOffset (offsetChars tz) = some tz := by
  cases tz with
  | none => rfl
  | some off =>
    have hoff : off.natAbs ≤ 1439 := h off rfl
    by_cases hneg : off < 0
    · rw [show offsetChars (some off) =
          '-' :: (padChars 2 (off.natAbs / 60) ++ ':' :: padChars 2 (off.natAbs % 60))
          from by rw [offsetChars, if_pos hneg]]
      rw [parseOffset_sign '-' _ _ (Or.inr rfl) (by omega) (by omega)]
      rw [show (if ('-' : Char) = '-' then (-1 : ℤ) else 1) = -1 from rfl]
      simp only [Option.some.injEq]
      omega
    · rw [show offsetChars (some off) =
          '+' :: (padChars 2 (off.natAbs / 60) ++ ':' :: padChars 2 (off.natAbs % 60))
          from by rw [offsetChars, if_neg hneg]]
      rw [parseOffset_sign '+' _ _ (Or.inl rfl) (by omega) (by omega)]
      rw [show (if ('+' : Char) = '-' then (-1 : ℤ) else 1) = 1 from rfl]
      simp only [Option.some.injEq]
      omega

/-- Round trip of the ATH store's timestamp serialization. -/
theorem parseDateTime_dateTimeChars (t : PyDateTime) (h : t.valid = true) :
    parseDateTime (dateTimeChars t) = some t := by
  obtain ⟨⟨y, mo, dy⟩, hh, mi, ss, us, tz⟩ := t
  have hb : ((1 ≤ y ∧ y ≤ 9999 ∧ 1 ≤ mo ∧ mo ≤ 12 ∧ 1 ≤ dy) ∧
      dy ≤ daysInMonth y mo) ∧ (hh ≤ 23 ∧ mi ≤ 59 ∧ ss ≤ 59 ∧ us ≤ 999999) ∧
      (∀ off, tz = some off → off.natAbs ≤ 1439) := by
    rcases tz with _ | off <;>
      simpa [PyDateTime.valid, PyDate.valid, Bool.and_eq_true, decide_eq_true_eq,
        and_assoc] using h
  have hdy31 : dy ≤ 31 := le_trans hb.1.2 (daysInMonth_le y mo)
  have hy : y % 10000 = y := by omega
  have hmo : mo % 100 = mo := by omega
  have hdy : dy % 100 = dy := by omega
  have hhh : hh % 100 = hh := by omega
  have hmi : mi % 100 = mi := by omega
  have hss : ss % 100 = ss := by omega
  have hus : us % 1000000 = us := by omega
  have hoffp : parseOffset (offsetChars tz) = some tz :=
    parseOffset_offsetChars tz hb.2.2
  by_cases husz : us = 0
  · subst husz
    have hmicro : microChars ⟨⟨y, mo, dy⟩, hh, mi, ss, 0, tz⟩ = [] := by
      rw [microChars, if_pos rfl]
    have hpm : parseMicro (offsetChars tz) = some (0, offsetChars tz) := by
      cases htz : tz with
      | none => rfl
      | some off =>
        rw [offsetChars]
        by_cases hneg : off < 0
        · rw [if_pos hneg]
          rw [show ∀ cs, parseMicro ('-' :: cs) = some (0, '-' :: cs) from
            fun cs => by simp [parseMicro]]
        · rw [if_neg hneg]
          rw [show ∀ cs, parseMicro ('+' :: cs) = some (0, '+' :: cs) from
            fun cs => by simp [parseMicro]]
    simp [parseDateTime, dateTimeChars, dateChars, timeChars, hmicro,
      parseFixedAux_padChars, parseFixedAux_padChars_nil,
      hy, hmo, hdy, hhh, hmi, hss, hpm, hoffp, h]
  · have hmicro : microChars ⟨⟨y, mo, dy⟩, hh, mi, ss, us, tz⟩ =
        '.' :: padChars 6 us := by
      rw [microChars, if_neg husz]
    have hpm : parseMicro ('.' :: (padChars 6 us ++ offsetChars tz)) =
        some (us, offsetChars tz) := by
      simp [parseMicro, parseFixedAux_padChars, hus]
    simp [parseDateTime, dateTimeChars, dateChars, timeChars, hmicro,
      parseFixedAux_padChars, parseFixedAux_padChars_nil,
      hy, hmo, hdy, hhh, hmi, hss, hpm, hoffp, h]

/-! ### ATH store (src/dca_alerts/persistence/ath_store.py)

The backing file is modelled at the JSON-value level; the store's methods
become functions of the file state.  Exceptions are explicit: `Except`
carries the exception class where it escapes. -/

/-- Python exception classes relevant to the store's control flow.
`invalidOperation` is `decimal.InvalidOperation`, a subclass of
`ArithmeticError` (not of `ValueError`); `athStoreError` is
`ATHStoreError` of ath_store.py. -/
inductive PyErr where
  | typeError
  | keyError
  | valueError
  | invalidOperation
  | osError
  | unboundLocalError
  | athStoreError
  deriving DecidableEq

/-- A JSON value (`json` module).  Numeric literals are modelled as
integers; an object is its key-value list in document order (objects
produced by `json.load` have unique keys). -/
inductive Json where
  | null
  | bool (b : Bool)
  | num (n : ℤ)
  | str (s : List Char)
  | arr (elems : List Json)
  | obj (entries : List (List Char × Json))

/-- Whether a JSON value is an object (`isinstance(data, dict)`). -/
def Json.isObj : Json → Bool
  | .obj _ => true
  | _ => false

/-- Lookup in a key-value list: the Python dict subscript (keys unique in
parsed dicts; first match). -/
def lookupKey {κ α : Type} [DecidableEq κ] (k : κ) : List (κ × α) → Option α
  | [] => none
  | (k', v) :: rest => if k' = k then some v else lookupKey k rest

/-- `d[k] = v` on a key-value list: replace the first binding in place,
else append (Python dicts update in place and append new keys). -/
def setKey {κ α : Type} [DecidableEq κ] (k : κ) (v : α) :
    List (κ × α) → List (κ × α)
  | [] => [(k, v)]
  | (k', v') :: rest =>
    if k' = k then (k, v) :: rest else (k', v') :: setKey k v rest

/-- Content of the backing file: undecodable bytes, or a JSON document. -/
inductive FileContent where
  | malformed
  | json (j : Json)

/-- State of the backing file; `none` means the file does not exist. -/
abbrev StoreState := Option FileContent

/-- `ATHStore._load`: `{}` for a missing file, undecodable contents
(`json.JSONDecodeError`) or a non-object top level; the entry list of the
document otherwise. -/
def ATHStore.load : StoreState → List (List Char × Json)
  | none => []
  | some .malformed => []
  | some (.json (.obj kvs)) => kvs
  | some (.json _) => []

/-- The inner loop `for idx in IndexSymbol: if idx.value == symbol_value`,
in iteration order. -/
def symbolOfValue (k : List Char) : Option IndexSymbol :=
  if k = IndexSymbol.SP500.value then some .SP500
  else if k = IndexSymbol.NASDAQ100.value then some .NASDAQ100
  else if k = IndexSymbol.RUSSELL2000.value then some .RUSSELL2000
  else none

/-- Subscript `record_data[key]`: `KeyError` on a missing key of an
object, `TypeError` when the subscripted value is not an object. -/
def getItem (j : Json) (k : List Char) : Except PyErr Json :=
  match j with
  | .obj kvs =>
    match lookupKey k kvs with
    | some v => .ok v
    | none => .error .keyError
  | _ => .error .typeError

/-- `Decimal(value)` on a JSON field value: a string is parsed by the
numeric-string grammar and an invalid one raises
`decimal.InvalidOperation`; ints and bools convert exactly; `None` and
dicts raise `TypeError`; lists raise `ValueError` (lists that happen to
form a valid `(sign, digits, exponent)` triple are outside the model). -/
def pyDecimal : Json → Except PyErr Dec
  | .str s =>
    (match parseDec s with
     | some d => .ok d
     | none => .error .invalidOperation)
  | .num n => .ok ⟨n, 0⟩
  | .bool b => .ok ⟨if b then 1 else 0, 0⟩
  | .null => .error .typeError
  | .arr _ => .error .valueError
  | .obj _ => .error .typeError

/-- `date.fromisoformat` on a JSON field value: a non-string raises
`TypeError`, an unparsable string raises `ValueError`. -/
def pyDateFrom : Json → Except PyErr PyDate
  | .str s =>
    (match parseDate s with
     | some d => .ok d
     | none => .error .valueError)
  | _ => .error .typeError

/-- `datetime.fromisoformat` on a JSON field value. -/
def pyDateTimeFrom : Json → Except PyErr PyDateTime
  | .str s =>
    (match parseDateTime s with
     | some t => .ok t
     | none => .error .valueError)
  | _ => .error .typeError

/-- Whether an exception class is caught by
`except (KeyError, ValueError)`. -/
def caughtByEntryHandler : PyErr → Bool
  | .keyError => true
  | .valueError => true
  | _ => false

/-- Body of the per-entry `try` block of `get_all`: field reads and
conversions in the evaluation order of the `ATHRecord(...)` call. -/
def parseEntry (idx : IndexSymbol) (record_data : Json) : Except PyErr ATHRecord := do
  let v ← getItem record_data "ath_value".toList
  let ath_value ← pyDecimal v
  let dv ← getItem record_data "ath_date".toList
  let ath_date ← pyDateFrom dv
  let uv ← getItem record_data "updated_at".toList
  let updated_at ← pyDateTimeFrom uv
  return ⟨idx, ath_value, ath_date, updated_at⟩

/-- Outcome of one entry of `get_all`'s loop: a record, a skip (exception
caught and logged), or an uncaught exception. -/
inductive EntryOutcome where
  | ok (r : ATHRecord)
  | skip
  | raised (e : PyErr)

/-- One entry of `get_all`'s loop after the `except (KeyError, ValueError)`
clause. -/
def entryOutcome (idx : IndexSymbol) (record_data : Json) : EntryOutcome :=
  match parseEntry idx record_data with
  | .ok r => .ok r
  | .error e => if caughtByEntryHandler e then .skip else .raised e

/-- Loop of `ATHStore.get_all` over the loaded entries in document order;
an uncaught exception aborts the call. -/
def get_all_aux : List (List Char × Json) → List (IndexSymbol × ATHRecord) →
    Except PyErr (List (IndexSymbol × ATHRecord))
  | [], acc => .ok acc
  | (k, v) :: rest, acc =>
    match symbolOfValue k with
    | none => get_all_aux rest acc
    | some idx =>
      match entryOutcome idx v with
      | .ok r => get_all_aux rest (setKey idx r acc)
      | .skip => get_all_aux rest acc
      | .raised e => .error e

/-- `ATHStore.get_all` as a function of the backing-file state. -/
def ATHStore.get_all (st : StoreState) :
    Except PyErr (List (IndexSymbol × ATHRecord)) :=
  get_all_aux (ATHStore.load st) []

/-- `ATHStore.get`: lookup through `get_all`. -/
def ATHStore.get (symbol : IndexSymbol) (st : StoreState) :
    Except PyErr (Option ATHRecord) :=
  match ATHStore.get_all st with
  | .ok records => .ok (lookupKey symbol records)
  | .error e => .error e

/-- The entry value written for a record by `ATHStore.update`:
`str(ath_value)`, `ath_date.isoformat()`, `updated_at.isoformat()`. -/
def entryJson (r : ATHRecord) : Json :=
  .obj [("ath_value".toList, .str (decChars r.ath_value)),
        ("ath_date".toList, .str (dateChars r.ath_date)),
        ("updated_at".toList, .str (dateTimeChars r.updated_at))]

/-- The document written by `ATHStore.update`: the loaded dict with the
record's entry upserted under `record.symbol.value`. -/
def updatedDict (st : StoreState) (r : ATHRecord) : List (List Char × Json) :=
  setKey r.symbol.value (entryJson r) (ATHStore.load st)

/-- `ATHStore.update` on the happy path (the write succeeds): load,
upsert, save. -/
def ATHStore.update (st : StoreState) (r : ATHRecord) : StoreState :=
  some (.json (.obj (updatedDict st r)))

/-- A sequence of `update` calls against the backing file. -/
def applyUpdates (st : StoreState) (rs : List ATHRecord) : StoreState :=
  rs.foldl ATHStore.update st

/-- Point at which an `OSError` strikes inside `ATHStore._save`, if any. -/
inductive SaveFault where
  | noFault
  | mkdirFail
  | createTempFail
  | dumpFail
  | closeFail
  | replaceFail
  deriving DecidableEq

/-- Disk as seen by one `_save` call: the committed backing file, and the
temp file left behind by this call (with its contents) if one survives. -/
structure Disk where
  committed : StoreState
  temp : Option Json

/-- Result of `ATHStore._save`: normal return, or the exception that
escapes. -/
inductive SaveResult where
  | returned
  | raised (e : PyErr)
  deriving DecidableEq

/-- `ATHStore._save data` under an injected I/O fault, traced from the
code:

* no fault: the temp file is written and atomically renamed over the
  backing file, committing the document;
* `mkdir` fails: the call sits outside the `try`, so the raw `OSError`
  escapes; nothing was written;
* creating the temp file fails: the `except OSError` handler runs, but
  the local `temp_path` was never assigned, so `temp_path.exists()`
  raises `UnboundLocalError`; no temp file exists;
* `json.dump` fails: `temp_path` is assigned only after the dump, so the
  handler again raises `UnboundLocalError`, and the partially written
  temp file is left behind;
* closing or renaming fails: `temp_path` is assigned by then, so the
  handler unlinks the temp file and raises `ATHStoreError`.

In every failure case the committed backing file is untouched. -/
def ATHStore.save (data : List (List Char × Json)) (d : Disk) :
    SaveFault → SaveResult × Disk
  | .noFault => (.returned, ⟨some (.json (.obj data)), none⟩)
  | .mkdirFail => (.raised .osError, ⟨d.committed, d.temp⟩)
  | .createTempFail => (.raised .unboundLocalError, ⟨d.committed, none⟩)
  | .dumpFail => (.raised .unboundLocalError, ⟨d.committed, some (.obj data)⟩)
  | .closeFail => (.raised .athStoreError, ⟨d.committed, none⟩)
  | .replaceFail => (.raised .athStoreError, ⟨d.committed, none⟩)

/-- `ATHStore.update` including the write phase under a fault. -/
def ATHStore.update_io (d : Disk) (r : ATHRecord) (f : SaveFault) :
    SaveResult × Disk :=
  ATHStore.save (updatedDict d.committed r) d f

/-! ### Dictionary and symbol lemmas -/

lemma lookupKey_setKey_self {κ α : Type} [DecidableEq κ] (k : κ) (v : α)
    (l : List (κ × α)) : lookupKey k (setKey k v l) = some v := by
  induction l with
  | nil => simp [setKey, lookupKey]
  | cons kv rest ih =>
    obtain ⟨k', v'⟩ := kv
    by_cases h : k' = k
    · simp [setKey, h, lookupKey]
    · simp [setKey, h, lookupKey, ih]

lemma lookupKey_setKey_ne {κ α : Type} [DecidableEq κ] {q k : κ} (v : α)
    (l : List (κ × α)) (h : q ≠ k) :
    lookupKey q (setKey k v l) = lookupKey q l := by
  have hkq : ¬ k = q := fun he => h he.symm
  induction l with
  | nil => simp [setKey, lookupKey, hkq]
  | cons kv rest ih =>
    obtain ⟨k', v'⟩ := kv
    by_cases h' : k' = k
    · subst h'
      simp [setKey, lookupKey, hkq]
    · simp only [setKey, if_neg h', lookupKey]
      by_cases hq : k' = q
      · simp [hq]
      · simp [hq, ih]

lemma mem_setKey {κ α : Type} [DecidableEq κ] (k : κ) (v : α)
    (l : List (κ × α)) : ∀ kv ∈ setKey k v l, kv = (k, v) ∨ kv ∈ l := by
  induction l with
  | nil => intro kv hkv; simp [setKey] at hkv; exact Or.inl hkv
  | cons kv' rest ih =>
    obtain ⟨k', v'⟩ := kv'
    intro kv hkv
    by_cases h : k' = k
    · simp only [setKey, if_pos h, List.mem_cons] at hkv
      rcases hkv with rfl | hkv
      · exact Or.inl rfl
      · exact Or.inr (List.mem_cons_of_mem _ hkv)
    · simp only [setKey, if_neg h, List.mem_cons] at hkv
      rcases hkv with rfl | hkv
      · exact Or.inr (List.mem_cons_self _ _)
      · rcases ih kv hkv with h1 | h1
        · exact Or.inl h1
        · exact Or.inr (List.mem_cons_of_mem _ h1)

lemma isSome_lookupKey_setKey {κ α : Type} [DecidableEq κ] (q k : κ) (v : α)
    (l : List (κ × α)) (h : (lookupKey q l).isSome) :
    (lookupKey q (setKey k v l)).isSome := by
  by_cases hqk : q = k
  · subst hqk
    rw [lookupKey_setKey_self]
    rfl
  · rw [lookupKey_setKey_ne v l hqk]
    exact h

lemma mem_keys_setKey {κ α : Type} [DecidableEq κ] (k : κ) (v : α)
    (l : List (κ × α)) :
    ∀ x ∈ (setKey k v l).map Prod.fst, x = k ∨ x ∈ l.map Prod.fst := by
  intro x hx
  rcases List.mem_map.mp hx with ⟨kv, hkv, rfl⟩
  rcases mem_setKey k v l kv hkv with rfl | hmem
  · exact Or.inl rfl
  · exact Or.inr (List.mem_map_of_mem _ hmem)

lemma nodup_keys_setKey {κ α : Type} [DecidableEq κ] (k : κ) (v : α)
    (l : List (κ × α)) (h : (l.map Prod.fst).Nodup) :
    ((setKey k v l).map Prod.fst).Nodup := by
  induction l with
  | nil => simp [setKey]
  | cons kv rest ih =>
    obtain ⟨k', v'⟩ := kv
    rw [List.map_cons, List.nodup_cons] at h
    by_cases hk : k' = k
    · subst hk
      rw [show setKey k' v ((k', v') :: rest) = (k', v) :: rest from by
        simp [setKey]]
      simp only [List.map_cons, List.nodup_cons]
      exact h
    · simp only [setKey, if_neg hk, List.map_cons, List.nodup_cons]
      refine ⟨?_, ih h.2⟩
      intro hmem
      rcases mem_keys_setKey k v rest k' hmem with rfl | hmem'
      · exact hk rfl
      · exact h.1 hmem'

lemma symbolOfValue_value (s : IndexSymbol) : symbolOfValue s.value = some s := by
  cases s <;> rfl

lemma eq_value_of_symbolOfValue (k : List Char) (s : IndexSymbol)
    (h : symbolOfValue k = some s) : k = s.value := by
  rw [symbolOfValue] at h
  split_ifs at h with h1 h2 h3
  · cases h; exact h1
  · cases h; exact h2
  · cases h; exact h3

lemma value_injective (s s' : IndexSymbol) (h : s.value = s'.value) : s = s' := by
  cases s <;> cases s' <;> first
    | rfl
    | exact absurd h (by decide)

/-! ### Round trip of a serialized entry -/

/-- A record whose date fields are valid `datetime` values (the invariants
every Python `date`/`datetime` object carries). -/
def recordValid (r : ATHRecord) : Bool :=
  r.ath_date.valid && r.updated_at.valid

lemma parseEntry_entryJson (r : ATHRecord) (hd : r.ath_date.valid = true)
    (ht : r.updated_at.valid = true) :
    parseEntry r.symbol (entryJson r) = .ok r := by
  obtain ⟨sym, v, dt, ts⟩ := r
  have g1 : getItem (entryJson ⟨sym, v, dt, ts⟩) "ath_value".toList =
      .ok (.str (decChars v)) := rfl
  have g2 : getItem (entryJson ⟨sym, v, dt, ts⟩) "ath_date".toList =
      .ok (.str (dateChars dt)) := rfl
  have g3 : getItem (entryJson ⟨sym, v, dt, ts⟩) "updated_at".toList =
      .ok (.str (dateTimeChars ts)) := rfl
  simp only [parseEntry, g1, g2, g3, pyDecimal, pyDateFrom, pyDateTimeFrom,
    parseDec_decChars, parseDate_dateChars _ hd, parseDateTime_dateTimeChars _ ht,
    Bind.bind, Except.bind, pure, Except.pure]

lemma entryOutcome_entryJson (r : ATHRecord) (hd : r.ath_date.valid = true)
    (ht : r.updated_at.valid = true) :
    entryOutcome r.symbol (entryJson r) = .ok r := by
  rw [entryOutcome, parseEntry_entryJson r hd ht]

/-! ### Behaviour of the `get_all` loop -/

/-- An entry is benign when processing it cannot abort `get_all`: its key
matches no symbol, or its outcome is not an uncaught exception. -/
def entryBenign (kv : List Char × Json) : Bool :=
  match symbolOfValue kv.1 with
  | none => true
  | some idx =>
    match entryOutcome idx kv.2 with
    | .raised _ => false
    | _ => true

lemma get_all_aux_ok (entries : List (List Char × Json))
    (hben : ∀ kv ∈ entries, entryBenign kv = true) :
    ∀ acc, ∃ recs, get_all_aux entries acc = .ok recs := by
  induction entries with
  | nil => intro acc; exact ⟨acc, rfl⟩
  | cons kv rest ih =>
    intro acc
    obtain ⟨k, v⟩ := kv
    have hb := hben (k, v) (List.mem_cons_self _ _)
    have hrest : ∀ kv ∈ rest, entryBenign kv = true :=
      fun kv hkv => hben kv (List.mem_cons_of_mem _ hkv)
    cases hsv : symbolOfValue k with
    | none => simpa [get_all_aux, hsv] using ih hrest acc
    | some idx =>
      cases ho : entryOutcome idx v with
      | ok r => simpa [get_all_aux, hsv, ho] using ih hrest (setKey idx r acc)
      | skip => simpa [get_all_aux, hsv, ho] using ih hrest acc
      | raised e =>
        exfalso
        simp [entryBenign, hsv, ho] at hb

lemma get_all_aux_lookup_of_no_match (entries : List (List Char × Json))
    (idx : IndexSymbol)
    (hnm : ∀ kv ∈ entries, symbolOfValue kv.1 ≠ some idx) :
    ∀ acc recs, get_all_aux entries acc = .ok recs →
      lookupKey idx recs = lookupKey idx acc := by
  induction entries with
  | nil =>
    intro acc recs h
    cases h
    rfl
  | cons kv rest ih =>
    intro acc recs h
    obtain ⟨k, v⟩ := kv
    have hhd := hnm (k, v) (List.mem_cons_self _ _)
    have hrest : ∀ kv ∈ rest, symbolOfValue kv.1 ≠ some idx :=
      fun kv hkv => hnm kv (List.mem_cons_of_mem _ hkv)
    cases hsv : symbolOfValue k with
    | none =>
      rw [show get_all_aux ((k, v) :: rest) acc = get_all_aux rest acc from by
        simp [get_all_aux, hsv]] at h
      exact ih hrest acc recs h
    | some idx' =>
      have hne : idx ≠ idx' := by
        intro he
        exact hhd (by rw [hsv, he])
      cases ho : entryOutcome idx' v with
      | ok r =>
        rw [show get_all_aux ((k, v) :: rest) acc =
            get_all_aux rest (setKey idx' r acc) from by
          simp [get_all_aux, hsv, ho]] at h
        rw [ih hrest _ recs h, lookupKey_setKey_ne r acc hne]
      | skip =>
        rw [show get_all_aux ((k, v) :: rest) acc = get_all_aux rest acc from by
          simp [get_all_aux, hsv, ho]] at h
        exact ih hrest acc recs h
      | raised e =>
        rw [show get_all_aux ((k, v) :: rest) acc = .error e from by
          simp [get_all_aux, hsv, ho]] at h
        cases h

lemma get_all_aux_lookup_entry (entries : List (List Char × Json))
    (idx : IndexSymbol) (r : ATHRecord)
    (hben : ∀ kv ∈ entries, entryBenign kv = true)
    (hnodup : (entries.map Prod.fst).Nodup)
    (hfound : lookupKey idx.value entries = some (entryJson r))
    (hok : entryOutcome idx (entryJson r) = .ok r) :
    ∀ acc, ∃ recs, get_all_aux entries acc = .ok recs ∧
      lookupKey idx recs = some r := by
  induction entries with
  | nil => simp [lookupKey] at hfound
  | cons kv rest ih =>
    obtain ⟨k, v⟩ := kv
    rw [List.map_cons, List.nodup_cons] at hnodup
    have hrest : ∀ kv ∈ rest, entryBenign kv = true :=
      fun kv hkv => hben kv (List.mem_cons_of_mem _ hkv)
    intro acc
    by_cases hk : k = idx.value
    · subst hk
      have hv : v = entryJson r := by
        rw [show lookupKey idx.value ((idx.value, v) :: rest) = some v from by
          simp [lookupKey]] at hfound
        exact Option.some.inj hfound
      subst hv
      obtain ⟨recs, hrecs⟩ := get_all_aux_ok rest hrest (setKey idx r acc)
      refine ⟨recs, ?_, ?_⟩
      · rw [show get_all_aux ((idx.value, entryJson r) :: rest) acc =
            get_all_aux rest (setKey idx r acc) from by
          simp [get_all_aux, symbolOfValue_value, hok]]
        exact hrecs
      · have hnm : ∀ kv ∈ rest, symbolOfValue kv.1 ≠ some idx := by
          intro kv hkv he
          have hkey : kv.1 = idx.value := eq_value_of_symbolOfValue _ _ he
          apply hnodup.1
          show idx.value ∈ List.map Prod.fst rest
          rw [← hkey]
          exact List.mem_map_of_mem Prod.fst hkv
        rw [get_all_aux_lookup_of_no_match rest idx hnm _ recs hrecs,
          lookupKey_setKey_self]
    · have hfound' : lookupKey idx.value rest = some (entryJson r) := by
        rw [show lookupKey idx.value ((k, v) :: rest) =
            lookupKey idx.value rest from by simp [lookupKey, hk]] at hfound
        exact hfound
      have hb := hben (k, v) (List.mem_cons_self _ _)
      cases hsv : symbolOfValue k with
      | none =>
        obtain ⟨recs, h1, h2⟩ := ih hrest hnodup.2 hfound' acc
        exact ⟨recs, by simpa [get_all_aux, hsv] using h1, h2⟩
      | some idx' =>
        cases ho : entryOutcome idx' v with
        | ok r' =>
          obtain ⟨recs, h1, h2⟩ := ih hrest hnodup.2 hfound' (setKey idx' r' acc)
          exact ⟨recs, by simpa [get_all_aux, hsv, ho] using h1, h2⟩
        | skip =>
          obtain ⟨recs, h1, h2⟩ := ih hrest hnodup.2 hfound' acc
          exact ⟨recs, by simpa [get_all_aux, hsv, ho] using h1, h2⟩
        | raised e =>
          exfalso
          simp [entryBenign, hsv, ho] at hb

/-! ### Store-level lemmas -/

lemma load_update (st : StoreState) (r : ATHRecord) :
    ATHStore.load (ATHStore.update st r) =
      setKey r.symbol.value (entryJson r) (ATHStore.load st) := rfl

lemma get_update (st : StoreState) (r : ATHRecord)
    (hd : r.ath_date.valid = true) (ht : r.updated_at.valid = true)
    (hben : ∀ kv ∈ ATHStore.load st, entryBenign kv = true)
    (hnodup : ((ATHStore.load st).map Prod.fst).Nodup) :
    ATHStore.get r.symbol (ATHStore.update st r) = .ok (some r) := by
  have hok := entryOutcome_entryJson r hd ht
  have hben' : ∀ kv ∈ updatedDict st r, entryBenign kv = true := by
    intro kv hkv
    rcases mem_setKey _ _ _ kv hkv with rfl | hmem
    · simp [entryBenign, symbolOfValue_value, hok]
    · exact hben kv hmem
  have hnodup' : ((updatedDict st r).map Prod.fst).Nodup :=
    nodup_keys_setKey _ _ _ hnodup
  have hfound : lookupKey r.symbol.value (updatedDict st r) =
      some (entryJson r) := lookupKey_setKey_self _ _ _
  obtain ⟨recs, hrecs, hlook⟩ :=
    get_all_aux_lookup_entry (updatedDict st r) r.symbol r hben' hnodup'
      hfound hok []
  have hga : ATHStore.get_all (ATHStore.update st r) = .ok recs := by
    rw [ATHStore.get_all, load_update]
    exact hrecs
  rw [ATHStore.get, hga]
  show Except.ok (lookupKey r.symbol recs) = Except.ok (some r)
  rw [hlook]

/-- The most recent record submitted for a symbol in a sequence of
`update` calls. -/
def lastRecordFor (s : IndexSymbol) (rs : List ATHRecord) : Option ATHRecord :=
  rs.foldl (fun acc r => if r.symbol = s then some r else acc) none

lemma foldl_lastRecordFor (s : IndexSymbol) :
    ∀ (rs : List ATHRecord) (acc : Option ATHRecord),
      rs.foldl (fun acc r => if r.symbol = s then some r else acc) acc =
        (match lastRecordFor s rs with
         | some x => some x
         | none => acc) := by
  intro rs
  induction rs with
  | nil => intro acc; rfl
  | cons r rs ih =>
    intro acc
    rw [List.foldl_cons, ih]
    rw [show lastRecordFor s (r :: rs) =
        (match lastRecordFor s rs with
         | some x => some x
         | none => if r.symbol = s then some r else none) from by
      rw [lastRecordFor, List.foldl_cons, ih]]
    cases lastRecordFor s rs <;> by_cases hr : r.symbol = s <;> simp [hr]

lemma lookup_applyUpdates (s : IndexSymbol) :
    ∀ (rs : List ATHRecord) (st : StoreState),
      lookupKey s.value (ATHStore.load (applyUpdates st rs)) =
        (match lastRecordFor s rs with
         | some r => some (entryJson r)
         | none => lookupKey s.value (ATHStore.load st)) := by
  intro rs
  induction rs with
  | nil => intro st; rfl
  | cons r rs ih =>
    intro st
    rw [show applyUpdates st (r :: rs) =
        applyUpdates (ATHStore.update st r) rs from rfl]
    rw [ih]
    rw [show lastRecordFor s (r :: rs) =
        (match lastRecordFor s rs with
         | some x => some x
         | none => if r.symbol = s then some r else none) from by
      rw [lastRecordFor, List.foldl_cons, foldl_lastRecordFor]]
    cases hlast : lastRecordFor s rs with
    | some x => rfl
    | none =>
      by_cases hr : r.symbol = s
      · rw [load_update, show r.symbol.value = s.value from by rw [hr],
          lookupKey_setKey_self]
        simp [hr]
      · have hne : s.value ≠ r.symbol.value :=
          fun he => hr (value_injective _ _ he.symm)
        rw [load_update, lookupKey_setKey_ne _ _ hne]
        simp [hr]

lemma isSome_lookup_applyUpdates (k : List Char) :
    ∀ (rs : List ATHRecord) (st : StoreState),
      (lookupKey k (ATHStore.load st)).isSome →
        (lookupKey k (ATHStore.load (applyUpdates st rs))).isSome := by
  intro rs
  induction rs with
  | nil => intro st h; exact h
  | cons r rs ih =>
    intro st h
    rw [show applyUpdates st (r :: rs) =
        applyUpdates (ATHStore.update st r) rs from rfl]
    apply ih
    rw [load_update]
    exact isSome_lookupKey_setKey _ _ _ _ h

/-! ### Arithmetic lemmas about the analyzer's rounding -/

lemma roundDown_of_nonneg {x : ℚ} (h : 0 ≤ x) : roundDown x = ⌊x⌋ := by
  rw [roundDown, if_pos h]

lemma roundHalfEven_nonpos {x : ℚ} (hx : x ≤ 0) : roundHalfEven x ≤ 0 := by
  have hf : (⌊x⌋ : ℚ) ≤ x := Int.floor_le x
  have hf0 : ⌊x⌋ ≤ 0 := by exact_mod_cast hf.trans hx
  rw [roundHalfEven]
  split_ifs with h1 h2 h3
  · exact hf0
  · by_contra hc
    push_neg at hc
    have h0f : (0 : ℚ) ≤ (⌊x⌋ : ℚ) := by exact_mod_cast (by omega : (0 : ℤ) ≤ ⌊x⌋)
    linarith
  · exact hf0
  · have hxf : x - ⌊x⌋ = 1/2 := le_antisymm (not_lt.mp h2) (not_lt.mp h1)
    have hhalf : (⌊x⌋ : ℚ) ≤ -(1/2) := by linarith
    have : ⌊x⌋ < 0 := by
      by_contra hc
      push_neg at hc
      have : (0 : ℚ) ≤ (⌊x⌋ : ℚ) := by exact_mod_cast hc
      linarith
    omega

lemma quantize2_nonpos {x : ℚ} (hx : x ≤ 0) : quantize2 x ≤ 0 := by
  have h1 : roundHalfEven (x * 100) ≤ 0 :=
    roundHalfEven_nonpos (mul_nonpos_iff.mpr (Or.inr ⟨hx, by norm_num⟩))
  have h2 : ((roundHalfEven (x * 100) : ℤ) : ℚ) ≤ 0 := by exact_mod_cast h1
  rw [quantize2, div_nonpos_iff]
  exact Or.inr ⟨h2, by norm_num⟩

lemma calculate_gap_percent_nonpos (c a : ℚ) (ha : 0 ≤ a) (hc : c ≤ a) :
    DropAnalyzer.calculate_gap_percent c a ≤ 0 := by
  rw [DropAnalyzer.calculate_gap_percent]
  by_cases h0 : a = 0
  · simp [h0]
  · rw [if_neg h0]
    apply quantize2_nonpos
    apply mul_nonpos_iff.mpr
    refine Or.inr ⟨?_, by norm_num⟩
    rw [div_nonpos_iff]
    exact Or.inr ⟨by linarith, ha⟩

lemma determine_drop_tier_eq_floor (a : DropAnalyzer) (g : ℚ) (hg : g ≤ 0)
    (hinc : 1 ≤ a.increment) :
    a.determine_drop_tier g = ⌊|g| / (a.increment : ℚ)⌋ * a.increment := by
  have hincq : (0 : ℚ) < (a.increment : ℚ) := by exact_mod_cast hinc.trans_lt' Int.zero_lt_one
  rw [DropAnalyzer.determine_drop_tier]
  by_cases h0 : 0 ≤ g
  · rw [if_pos h0]
    have hz : g = 0 := le_antisymm hg h0
    rw [hz]
    simp
  · rw [if_neg h0, roundDown_of_nonneg (div_nonneg (abs_nonneg g) hincq.le)]

/-- Numeric value of a `Dec` with a nonnegative coefficient. -/
lemma toRat_nonneg (d : Dec) (h : 0 ≤ d.m) : 0 ≤ d.toRat := by
  rw [Dec.toRat]
  split_ifs
  · exact mul_nonneg (by exact_mod_cast h) (by positivity)
  · exact div_nonneg (by exact_mod_cast h) (by positivity)

lemma roundHalfEven_half_int (k : ℤ) :
    roundHalfEven ((k : ℚ) + 1/2) = (if k % 2 = 0 then k else k + 1) := by
  have hfl : ⌊(k : ℚ) + 1/2⌋ = k := by
    rw [add_comm, Int.floor_add_int]
    norm_num
  rw [roundHalfEven]
  simp only [hfl]
  have hxf : (k : ℚ) + 1/2 - (k : ℚ) = 1/2 := by ring
  rw [hxf, if_neg (lt_irrefl _), if_neg (lt_irrefl _)]

/-! ### Sample data for scenarios, witnesses and counterexamples -/

/-- An ATH record for the S&P 500 at 6000.00, dated 2025-01-10. -/
def rec6000 : ATHRecord :=
  ⟨.SP500, ⟨600000, -2⟩, ⟨2025, 1, 10⟩, ⟨⟨2025, 1, 10⟩, 18, 0, 0, 0, some 0⟩⟩

/-- An ATH record for the S&P 500 at 5000.00, dated 2025-01-15. -/
def rec5000 : ATHRecord :=
  ⟨.SP500, ⟨500000, -2⟩, ⟨2025, 1, 15⟩, ⟨⟨2025, 1, 15⟩, 18, 0, 0, 0, some 0⟩⟩

/-- A sample `datetime.now(timezone.utc)` value. -/
def sampleTs : PyDateTime := ⟨⟨2025, 1, 15⟩, 18, 0, 0, 0, some 0⟩

/-- An observation of the S&P 500 at 5700.00 on 2025-01-15. -/
def sampleIdx5700 : IndexData := ⟨.SP500, ⟨570000, -2⟩, sampleTs, ⟨2025, 1, 15⟩⟩

/-- A backing file whose only entry has a non-numeric `ath_value` string. -/
def badValueFile : StoreState :=
  some (.json (.obj [("^GSPC".toList,
    .obj [("ath_value".toList, .str "abc".toList),
          ("ath_date".toList, .str "2025-01-10".toList),
          ("updated_at".toList, .str "2025-01-10T18:00:00+00:00".toList)])]))

/-- A backing file whose only entry is missing the record fields (the
repository's own `test_handles_invalid_record` fixture). -/
def missingFieldsFile : StoreState :=
  some (.json (.obj [("^GSPC".toList,
    .obj [("missing".toList, .str "fields".toList)])]))

/-- A backing file whose only entry value is a plain string. -/
def stringEntryFile : StoreState :=
  some (.json (.obj [("^GSPC".toList, .str "oops".toList)]))

/-! ### Claim theorems -/

/-- C8: `DropAnalyzer` construction fails (`ValueError`, the realization of
the spec's `InvalidConfiguration`) exactly for integer increments outside
`[1, 100]`, and succeeds, storing the increment, for integers inside
`[1, 100]`.  (The constructor's parameter is typed `int`.) -/
theorem claim_C8_init_validates_increment (i : ℤ) :
    (DropAnalyzer.init i = none ↔ (i < 1 ∨ 100 < i)) ∧
    ((1 ≤ i ∧ i ≤ 100) ↔ DropAnalyzer.init i = some ⟨i⟩) := by
  rw [DropAnalyzer.init]
  by_cases h : i ≤ 0 ∨ 100 < i
  · rw [if_pos h]
    refine ⟨⟨fun _ => by omega, fun _ => rfl⟩,
      ⟨fun hc => by omega, fun hc => Option.noConfusion hc⟩⟩
  · rw [if_neg h]
    push_neg at h
    refine ⟨⟨fun hc => Option.noConfusion hc, fun hc => by omega⟩,
      ⟨fun _ => rfl, fun _ => by omega⟩⟩

/-- C10: a backing file holding valid JSON whose top level is not an
object makes `get_all` return the empty mapping without raising
(`_load` replaces a non-dict top level with `{}`). -/
theorem claim_C10_non_object_top_level (j : Json) (h : j.isObj = false) :
    ATHStore.get_all (some (.json j)) = .ok [] := by
  cases j <;> first
    | rfl
    | (exfalso; simp [Json.isObj] at h)

theorem claim_C10_witness :
    (Json.arr []).isObj = false ∧
    ATHStore.get_all (some (.json (.arr []))) = .ok [] :=
  ⟨rfl, claim_C10_non_object_top_level (Json.arr []) rfl⟩

/-- C4: `get_all` is robust to a missing file, to undecodable contents and
to an entry with missing fields — but an entry whose `ath_value` string is
not numeric makes `Decimal(...)` raise `decimal.InvalidOperation`, which
`except (KeyError, ValueError)` does not catch, so `get_all` raises
instead of skipping the entry; an entry value that is not an object
likewise raises `TypeError`. -/
theorem claim_C4_get_all_uncaught_entry_errors :
    ATHStore.get_all badValueFile = .error .invalidOperation ∧
    ATHStore.get_all stringEntryFile = .error .typeError ∧
    ATHStore.get_all none = .ok [] ∧
    ATHStore.get_all (some .malformed) = .ok [] ∧
    ATHStore.get_all missingFieldsFile = .ok [] :=
  ⟨rfl, rfl, rfl, rfl, rfl⟩

/-- C5: on any injected I/O fault the committed backing file is untouched;
but a fault at `json.dump` escapes as `UnboundLocalError` (the handler
reads the unassigned `temp_path`) and leaves the partial temp file behind,
and only faults after `temp_path` is assigned (close/rename) produce the
intended `ATHStoreError` with the temp file removed; a `mkdir` fault
escapes as a raw `OSError`. -/
theorem claim_C5_save_fault_behaviour :
    (∀ (d : Disk) (r : ATHRecord) (f : SaveFault), f ≠ .noFault →
      (ATHStore.update_io d r f).2.committed = d.committed) ∧
    (ATHStore.update_io ⟨none, none⟩ rec6000 .dumpFail).1 =
      .raised .unboundLocalError ∧
    (ATHStore.update_io ⟨none, none⟩ rec6000 .dumpFail).2.temp =
      some (.obj (updatedDict none rec6000)) ∧
    (ATHStore.update_io ⟨none, none⟩ rec6000 .createTempFail).1 =
      .raised .unboundLocalError ∧
    (ATHStore.update_io ⟨none, none⟩ rec6000 .mkdirFail).1 = .raised .osError ∧
    (ATHStore.update_io ⟨none, none⟩ rec6000 .replaceFail).1 =
      .raised .athStoreError ∧
    (ATHStore.update_io ⟨none, none⟩ rec6000 .replaceFail).2.temp = none := by
  refine ⟨?_, rfl, rfl, rfl, rfl, rfl, rfl⟩
  intro d r f hf
  cases f with
  | noFault => exact absurd rfl hf
  | mkdirFail => rfl
  | createTempFail => rfl
  | dumpFail => rfl
  | closeFail => rfl
  | replaceFail => rfl

theorem claim_C5_witness :
    (ATHStore.update_io ⟨none, none⟩ rec6000 .dumpFail).2.committed = none :=
  claim_C5_save_fault_behaviour.1 ⟨none, none⟩ rec6000 .dumpFail (by decide)

/-- C1 counterexample: `update` is an unconditional upsert, so submitting a
lower `ath_value` after a higher one lowers the stored value: after
updating with 6000.00 and then 5000.00 for the S&P 500, `get` returns the
5000.00 record, not the maximum of the submitted values. -/
theorem claim_C1_counterexample :
    ATHStore.get .SP500 (applyUpdates none [rec6000, rec5000]) =
      .ok (some rec5000) ∧
    rec5000.ath_value.toRat < rec6000.ath_value.toRat := by
  constructor
  · rfl
  · have h2 : ((2 : ℤ)).toNat = 2 := rfl
    norm_num [rec5000, rec6000, Dec.toRat, h2]

/-- C1 amended: after a sequence of `update` calls, the stored entry for a
symbol is the serialization of the most recently submitted record for that
symbol (last write wins, with no comparison against the stored value), and
no `update` call removes an existing entry. -/
theorem claim_C1_amended_last_write_wins (st : StoreState) (rs : List ATHRecord)
    (s : IndexSymbol) (r : ATHRecord) (hlast : lastRecordFor s rs = some r) :
    lookupKey s.value (ATHStore.load (applyUpdates st rs)) =
      some (entryJson r) ∧
    ∀ k : List Char, (lookupKey k (ATHStore.load st)).isSome = true →
      (lookupKey k (ATHStore.load (applyUpdates st rs))).isSome = true := by
  constructor
  · rw [lookup_applyUpdates, hlast]
  · intro k h
    exact isSome_lookup_applyUpdates k rs st h

theorem claim_C1_amended_witness :
    lookupKey IndexSymbol.SP500.value
      (ATHStore.load (applyUpdates (ATHStore.update none rec6000) [rec5000])) =
        some (entryJson rec5000) ∧
    (lookupKey "^GSPC".toList
      (ATHStore.load (applyUpdates (ATHStore.update none rec6000)
        [rec5000]))).isSome = true := by
  have h := claim_C1_amended_last_write_wins (ATHStore.update none rec6000)
    [rec5000] .SP500 rec5000 rfl
  exact ⟨h.1, h.2 "^GSPC".toList (by decide)⟩

/-- C7: `update(r)` followed by `get(r.symbol)` returns the record exactly
(the `str`/`Decimal` and `isoformat`/`fromisoformat` round trips lose no
information).  The record's date fields carry the invariants of Python
`date`/`datetime` objects; the pre-existing file must not contain an entry
that would make `get_all` raise (see C4), and being a parsed dict its keys
are unique. -/
theorem claim_C7_update_get_round_trip (st : StoreState) (r : ATHRecord)
    (hd : r.ath_date.valid = true) (ht : r.updated_at.valid = true)
    (hben : ∀ kv ∈ ATHStore.load st, entryBenign kv = true)
    (hnodup : ((ATHStore.load st).map Prod.fst).Nodup) :
    ATHStore.get r.symbol (ATHStore.update st r) = .ok (some r) :=
  get_update st r hd ht hben hnodup

theorem claim_C7_witness :
    ATHStore.get rec6000.symbol (ATHStore.update none rec6000) =
      .ok (some rec6000) :=
  claim_C7_update_get_round_trip none rec6000 (by decide) (by decide)
    (fun kv hkv => absurd hkv (List.not_mem_nil kv)) List.nodup_nil

lemma roundHalfEven_intCast (z : ℤ) : roundHalfEven (z : ℚ) = z := by
  rw [roundHalfEven]
  simp only [Int.floor_intCast, sub_self]
  rw [if_pos (by norm_num : (0 : ℚ) < 1/2)]

lemma quantize2_int (z : ℤ) : quantize2 (z : ℚ) = (z : ℚ) := by
  rw [quantize2, show ((z : ℚ) * 100) = ((z * 100 : ℤ) : ℚ) from by push_cast; ring,
    roundHalfEven_intCast, Int.cast_mul]
  norm_num

/-- C3: with no prior record, or with a prior record whose value is
strictly below the current price, `analyze` takes the new-ATH branch:
zero gap and tier, HOLD, `is_new_ath`, and a new record at the current
price dated at the observation's market date (timestamped `now`); when the
current price merely equals the prior value the branch is not taken. -/
theorem claim_C3_new_ath_branch (a : DropAnalyzer) (now : PyDateTime)
    (d : IndexData) (ro : Option ATHRecord) :
    ((ro = none ∨ ∃ r, ro = some r ∧ r.ath_value.toRat < d.current_price.toRat) →
      a.analyze now d ro =
        (⟨d.symbol, d.current_price, d.current_price, d.market_date, 0, 0,
            .HOLD, true⟩,
          some ⟨d.symbol, d.current_price, d.market_date, now⟩)) ∧
    (∀ r, ro = some r → r.ath_value.toRat = d.current_price.toRat →
      (a.analyze now d ro).1.is_new_ath = false ∧
      (a.analyze now d ro).2 = none) := by
  constructor
  · rintro (rfl | ⟨r, rfl, hlt⟩)
    · rfl
    · simp [DropAnalyzer.analyze, hlt]
  · rintro r rfl heq
    have hnlt : ¬ (r.ath_value.toRat < d.current_price.toRat) := by
      rw [heq]
      exact lt_irrefl _
    constructor <;> simp [DropAnalyzer.analyze, hnlt]

/-- An ATH record whose value equals the 5700.00 observation exactly. -/
def rec5700 : ATHRecord :=
  ⟨.SP500, ⟨570000, -2⟩, ⟨2025, 1, 10⟩, ⟨⟨2025, 1, 10⟩, 18, 0, 0, 0, some 0⟩⟩

theorem claim_C3_witness :
    DropAnalyzer.analyze ⟨5⟩ sampleTs sampleIdx5700 none =
      (⟨sampleIdx5700.symbol, sampleIdx5700.current_price,
          sampleIdx5700.current_price, sampleIdx5700.market_date, 0, 0,
          .HOLD, true⟩,
        some ⟨sampleIdx5700.symbol, sampleIdx5700.current_price,
          sampleIdx5700.market_date, sampleTs⟩) ∧
    (DropAnalyzer.analyze ⟨5⟩ sampleTs sampleIdx5700 (some rec5700)).1.is_new_ath
      = false ∧
    (DropAnalyzer.analyze ⟨5⟩ sampleTs sampleIdx5700 (some rec5700)).2 = none := by
  have h1 := (claim_C3_new_ath_branch ⟨5⟩ sampleTs sampleIdx5700 none).1 (Or.inl rfl)
  have h2 := (claim_C3_new_ath_branch ⟨5⟩ sampleTs sampleIdx5700 (some rec5700)).2
    rec5700 rfl rfl
  exact ⟨h1, h2.1, h2.2⟩

/-- C2: in the drop branch (current at most the prior ATH, prices
nonnegative, a constructor-valid increment), the result carries the
specified gap (zero when the stored ATH is zero, else the exact relative
gap times 100 quantized to two decimals half-to-even), the floored tier
(truncation and floor agree on this nonnegative quotient), BUY exactly for
a positive tier, no new-ATH flag, and no new record. -/
theorem claim_C2_drop_branch (a : DropAnalyzer) (now : PyDateTime) (d : IndexData)
    (r : ATHRecord) (hinc : 1 ≤ a.increment) (hm : 0 ≤ r.ath_value.m)
    (hle : d.current_price.toRat ≤ r.ath_value.toRat) :
    (a.analyze now d (some r)).1.gap_percent =
      (if r.ath_value.toRat = 0 then 0
       else quantize2 ((d.current_price.toRat - r.ath_value.toRat) /
         r.ath_value.toRat * 100)) ∧
    (a.analyze now d (some r)).1.drop_tier =
      ⌊|(a.analyze now d (some r)).1.gap_percent| / (a.increment : ℚ)⌋ *
        a.increment ∧
    (a.analyze now d (some r)).1.recommendation =
      (if 0 < (a.analyze now d (some r)).1.drop_tier then .BUY else .HOLD) ∧
    (a.analyze now d (some r)).1.is_new_ath = false ∧
    (a.analyze now d (some r)).2 = none := by
  have hnlt : ¬ (r.ath_value.toRat < d.current_price.toRat) := not_lt.mpr hle
  have hgaple : DropAnalyzer.calculate_gap_percent d.current_price.toRat
      r.ath_value.toRat ≤ 0 :=
    calculate_gap_percent_nonpos _ _ (toRat_nonneg _ hm) hle
  have hout : a.analyze now d (some r) =
      (⟨d.symbol, d.current_price, r.ath_value, r.ath_date,
        DropAnalyzer.calculate_gap_percent d.current_price.toRat r.ath_value.toRat,
        a.determine_drop_tier (DropAnalyzer.calculate_gap_percent
          d.current_price.toRat r.ath_value.toRat),
        if 0 < a.determine_drop_tier (DropAnalyzer.calculate_gap_percent
          d.current_price.toRat r.ath_value.toRat) then .BUY else .HOLD,
        false⟩, none) := by
    simp [DropAnalyzer.analyze, hnlt]
  rw [hout]
  exact ⟨rfl, determine_drop_tier_eq_floor a _ hgaple hinc, rfl, rfl, rfl⟩

/-- An observation equal to the stored 6000.00 ATH. -/
def idx6000 : IndexData := ⟨.SP500, ⟨600000, -2⟩, sampleTs, ⟨2025, 1, 15⟩⟩

theorem claim_C2_witness :
    (DropAnalyzer.analyze ⟨5⟩ sampleTs idx6000 (some rec6000)).1.is_new_ath
      = false ∧
    (DropAnalyzer.analyze ⟨5⟩ sampleTs idx6000 (some rec6000)).2 = none := by
  have h := claim_C2_drop_branch ⟨5⟩ sampleTs idx6000 rec6000 (by decide)
    (by decide) (le_refl _)
  exact ⟨h.2.2.2.1, h.2.2.2.2⟩

/-- C6: for a constructor-valid increment and a nonpositive gap, the tier
is a multiple of the increment and at most the gap magnitude, a magnitude
exactly on a tier boundary is assigned that tier, and the boundary
scenario (increment 5, ATH 6000.00, current 5700.00) yields gap −5.00,
tier 5, BUY. -/
theorem claim_C6_tier_algebra (inc : ℤ) (g : ℚ) (h1 : 1 ≤ inc) (h2 : inc ≤ 100)
    (hg : g ≤ 0) :
    (inc ∣ DropAnalyzer.determine_drop_tier ⟨inc⟩ g) ∧
    ((DropAnalyzer.determine_drop_tier ⟨inc⟩ g : ℚ) ≤ |g|) ∧
    (∀ n : ℤ, 0 ≤ n → |g| = ((n * inc : ℤ) : ℚ) →
      DropAnalyzer.determine_drop_tier ⟨inc⟩ g = n * inc) ∧
    ((DropAnalyzer.analyze ⟨5⟩ sampleTs sampleIdx5700 (some rec6000)).1.gap_percent
        = -5 ∧
     (DropAnalyzer.analyze ⟨5⟩ sampleTs sampleIdx5700 (some rec6000)).1.drop_tier
        = 5 ∧
     (DropAnalyzer.analyze ⟨5⟩ sampleTs sampleIdx5700 (some rec6000)).1.recommendation
        = .BUY) := by
  have hincq : (0 : ℚ) < ((inc : ℤ) : ℚ) := by
    exact_mod_cast (by omega : (0 : ℤ) < inc)
  have hfloor := determine_drop_tier_eq_floor ⟨inc⟩ g hg h1
  have h2toNat : ((2 : ℤ)).toNat = 2 := rfl
  have hratc : sampleIdx5700.current_price.toRat = 5700 := by
    norm_num [sampleIdx5700, Dec.toRat, h2toNat]
  have hrata : rec6000.ath_value.toRat = 6000 := by
    norm_num [rec6000, Dec.toRat, h2toNat]
  have hnlt : ¬ (rec6000.ath_value.toRat < sampleIdx5700.current_price.toRat) := by
    rw [hratc, hrata]
    norm_num
  have hgapv : DropAnalyzer.calculate_gap_percent
      sampleIdx5700.current_price.toRat rec6000.ath_value.toRat = -5 := by
    rw [hratc, hrata, DropAnalyzer.calculate_gap_percent,
      if_neg (by norm_num : ¬ (6000 : ℚ) = 0),
      show ((5700 : ℚ) - 6000) / 6000 * 100 = ((-5 : ℤ) : ℚ) from by norm_num,
      quantize2_int]
    norm_num
  have htierv : DropAnalyzer.determine_drop_tier ⟨5⟩ (-5 : ℚ) = 5 := by
    rw [DropAnalyzer.determine_drop_tier,
      if_neg (by norm_num : ¬ (0 : ℚ) ≤ -5)]
    rw [show |(-5 : ℚ)| / (((5 : ℤ) : ℚ)) = 1 from by norm_num,
      roundDown_of_nonneg (by norm_num : (0 : ℚ) ≤ 1)]
    norm_num
  refine ⟨?_, ?_, ?_, ?_, ?_, ?_⟩
  · rw [hfloor]
    exact dvd_mul_left inc _
  · rw [hfloor]
    push_cast
    calc (⌊|g| / ((inc : ℤ) : ℚ)⌋ : ℚ) * ((inc : ℤ) : ℚ)
        ≤ |g| / ((inc : ℤ) : ℚ) * ((inc : ℤ) : ℚ) := by
          exact mul_le_mul_of_nonneg_right (Int.floor_le _) hincq.le
      _ = |g| := div_mul_cancel₀ _ (ne_of_gt hincq)
  · intro n hn hgn
    rw [hfloor, hgn]
    congr 1
    rw [show (((n * inc : ℤ)) : ℚ) / ((inc : ℤ) : ℚ) = ((n : ℤ) : ℚ) from by
      push_cast
      field_simp]
    exact Int.floor_intCast n
  · simp [DropAnalyzer.analyze, hnlt, hgapv]
  · simp [DropAnalyzer.analyze, hnlt, hgapv, htierv]
  · simp [DropAnalyzer.analyze, hnlt, hgapv, htierv]

theorem claim_C6_witness :
    ((5 : ℤ) ∣ DropAnalyzer.determine_drop_tier ⟨5⟩ 0) ∧
    ((DropAnalyzer.determine_drop_tier ⟨5⟩ 0 : ℚ) ≤ |(0 : ℚ)|) := by
  have h := claim_C6_tier_algebra 5 0 (by decide) (by decide) (le_refl 0)
  exact ⟨h.1, h.2.1⟩

/-- C9: `calculate_gap_percent` quantizes half-to-even: when the exact
percentage gap sits exactly half way between two second-decimal values
(its value in hundredths is `k + 1/2`), the result is the even neighbour
`m/100` (distance exactly half a hundredth on either side); in particular
an exact gap of −2.005 percent (current 195.99, ATH 200) yields −2.00. -/
theorem claim_C9_bankers_rounding (c a : ℚ) (k : ℤ) (ha : 0 < a)
    (hhalf : (c - a) / a * 100 * 100 = (k : ℚ) + 1/2) :
    (DropAnalyzer.calculate_gap_percent c a =
      (((if k % 2 = 0 then k else k + 1) : ℤ) : ℚ) / 100 ∧
     ((if k % 2 = 0 then k else k + 1) : ℤ) % 2 = 0 ∧
     |(((if k % 2 = 0 then k else k + 1) : ℤ) : ℚ) - ((k : ℚ) + 1/2)| = 1/2) ∧
    DropAnalyzer.calculate_gap_percent ((19599 : ℚ) / 100) 200 = -2 := by
  refine ⟨⟨?_, ?_, ?_⟩, ?_⟩
  · rw [DropAnalyzer.calculate_gap_percent, if_neg (ne_of_gt ha), quantize2,
      hhalf, roundHalfEven_half_int]
  · by_cases hk : k % 2 = 0
    · rw [if_pos hk]
      exact hk
    · rw [if_neg hk]
      omega
  · by_cases hk : k % 2 = 0
    · rw [if_pos hk, show ((k : ℚ)) - ((k : ℚ) + 1/2) = -(1/2) from by ring]
      norm_num
    · rw [if_neg hk, show (((k + 1 : ℤ)) : ℚ) - ((k : ℚ) + 1/2) = 1/2 from by
        push_cast
        ring]
      norm_num
  · rw [DropAnalyzer.calculate_gap_percent, if_neg (by norm_num : ¬ (200 : ℚ) = 0),
      quantize2,
      show ((19599 : ℚ) / 100 - 200) / 200 * 100 * 100 = ((-201 : ℤ) : ℚ) + 1/2
        from by norm_num,
      roundHalfEven_half_int, if_neg (by decide : ¬ (-201 : ℤ) % 2 = 0)]
    norm_num

lemma c9_instance_half :
    (((19599 : ℚ) / 100) - 200) / 200 * 100 * 100 = ((-201 : ℤ) : ℚ) + 1/2 := by
  norm_num

lemma c9_instance_pos : (0 : ℚ) < 200 := by norm_num

theorem claim_C9_witness :
    DropAnalyzer.calculate_gap_percent ((19599 : ℚ) / 100) 200 =
      (((if (-201 : ℤ) % 2 = 0 then (-201 : ℤ) else -201 + 1) : ℤ) : ℚ) / 100 ∧
    ((if (-201 : ℤ) % 2 = 0 then (-201 : ℤ) else -201 + 1) : ℤ) % 2 = 0 := by
  have h := claim_C9_bankers_rounding ((19599 : ℚ) / 100) 200 (-201)
    c9_instance_pos c9_instance_half
  exact ⟨h.1.1, h.1.2.1⟩

end DcaAlerts
